import Mathlib

/-!
# Verification of the TCC accessibility-routing core

A shallow embedding, in Lean 4, of the weighting, routing and benchmarking
functions of the repository (src/graph_weighting.py, src/route_calculator.py,
src/benchmark_algoritmos.py), together with theorems settling the spec claims.

Conventions of the embedding:
* Python floats are modelled as exact rationals (`ℚ`); float literals such as
  `0.7` become `7/10`.  No claim in scope depends on binary rounding.
* Python dictionaries of optional OSM tags become `Option`-valued record
  fields; `dict.get(k, d)` becomes `Option.getD`.
* Python sets that only ever grow by insertion of fresh elements are revisited
  as Nodup lists (`visitados`, `explorados`).
* `heapq` on `(float, int)` tuples is modelled as a list plus extraction of
  the lexicographically least pair (`heapPop`), which is what successive
  `heappop`s deliver.
* The module `mobility_profiles.py` and the function `heuristica_astar` are
  not under src/; they are modelled from the spec (marked in doc comments).
-/

/-- Value of a Python tag that can be either a string or a number
(the `incline` / `width` attributes of OSM edges). -/
inductive TagVal where
  | vstr (s : String)
  | vnum (q : ℚ)
deriving DecidableEq, Repr

/-- Python truthiness of an optional tag value: `None`, `0`, `0.0` and the
empty string are falsy, everything else is truthy (used for `if incline:`
and `if width and ...:` in `calcular_peso_aresta`). -/
def tagTruthy : Option TagVal → Bool
  | none => false
  | some (.vstr s) => s ≠ ""
  | some (.vnum q) => q ≠ 0

/-- Per-edge attribute dictionary of the OSM multigraph, restricted to the
attributes `graph_weighting.py` reads, plus an opaque remainder `extra`
standing for every other attribute (for the frame claims). -/
structure EdgeData where
  length : Option ℚ
  length_original : Option ℚ
  wheelchair : Option String
  highway : Option String
  incline : Option TagVal
  ramp : Option String
  surface : Option String
  width : Option TagVal
  extra : List (String × String)
deriving DecidableEq, Repr

/-- Per-node attribute dictionary: coordinates plus the crossing tags read by
`identificar_faixas_pedestres`, plus an opaque remainder. -/
structure NodeData where
  y : ℚ
  x : ℚ
  crossing : Option String
  highway : Option String
  extra : List (String × String)
deriving DecidableEq, Repr

/-- One edge of the NetworkX multigraph: endpoints, multigraph key, data. -/
structure WEdge where
  u : ℕ
  v : ℕ
  key : ℕ
  data : EdgeData
deriving DecidableEq, Repr

/-- The NetworkX multi-digraph produced by the external loader. -/
structure WGraph where
  nodes : List (ℕ × NodeData)
  edges : List WEdge
deriving DecidableEq, Repr

/-- Modelled from the spec: the module `mobility_profiles.py` is not under
src/ (only its importers are).  Per spec §3, a `MobilityProfile` is a named
set of multiplicative penalty coefficients and boolean flags; the field names
are the ones accessed in `graph_weighting.py`. -/
structure MobilityProfile where
  nome : String
  requer_acessibilidade : Bool
  prefere_faixas : Bool
  penalizacao_sem_rampa : ℚ
  penalizacao_escadas : ℚ
  penalizacao_inclinacao : ℚ
  penalizacao_sem_faixa : ℚ
deriving DecidableEq, Repr

/-! ## Parsing helpers (Python `float(str)`, `str.replace`, `str.strip`) -/

/-- Digits of a decimal string chunk, or `none` if any char is not a digit
or the chunk is empty. -/
def digitsVal? (l : List Char) : Option ℕ :=
  if l = [] then none
  else l.foldl (fun acc c => match acc with
    | none => none
    | some n => if c.isDigit then some (n * 10 + (c.toNat - 48)) else none) (some 0)

/-- Python `float(s)` on an already-stripped string, for the decimal forms
`[+|-] digits [. digits]` with at least one digit (exponent, `inf` and `nan`
forms are irrelevant to any claim and are not modelled: both sides of every
theorem share this parser). -/
def pyFloat? (s : String) : Option ℚ :=
  let l := s.toList
  let (sign, l) : ℚ × List Char :=
    match l with
    | '-' :: rest => (-1, rest)
    | '+' :: rest => (1, rest)
    | _ => (1, l)
  match l.splitOn '.' with
  | [intPart] =>
      match digitsVal? intPart with
      | some n => some (sign * n)
      | none => none
  | [intPart, fracPart] =>
      if intPart = [] ∧ fracPart = [] then none
      else
        let iOk := intPart = [] ∨ (digitsVal? intPart).isSome
        let fOk := fracPart = [] ∨ (digitsVal? fracPart).isSome
        if iOk ∧ fOk then
          let i : ℚ := ((digitsVal? intPart).getD 0 : ℕ)
          let f : ℚ := ((digitsVal? fracPart).getD 0 : ℕ)
          some (sign * (i + f / (10 ^ fracPart.length)))
        else none
  | _ => none

/-- Python `s.replace(old, '')` for a single-character `old`. -/
def removeChar (c : Char) (s : String) : String :=
  ⟨s.toList.filter (· ≠ c)⟩

/-- Python `s.strip()`: whitespace removed from both ends. -/
def pyStrip (s : String) : String :=
  ⟨((s.toList.dropWhile (·.isWhitespace)).reverse.dropWhile (·.isWhitespace)).reverse⟩

/-- `'ramp' in highway_type`: substring containment on char lists. -/
def listContainsSub (needle : List Char) : List Char → Bool
  | [] => needle = []
  | c :: rest => needle.isPrefixOf (c :: rest) || listContainsSub needle rest

/-- Python `needle in haystack` for strings. -/
def strContains (haystack needle : String) : Bool :=
  listContainsSub needle.toList haystack.toList

/-! ## graph_weighting.py -/

/-- `identificar_faixas_pedestres(G)`: node ids whose `crossing` tag is one of
`yes`/`marked`/`zebra`/`traffic_signals`, or whose `highway` tag is
`crossing`.  The source's `elif` fires whenever the first test is false —
including when a `crossing` tag is present with a non-matching value — and
both branches add to the same set, so membership is the plain disjunction.
`getD ""` renders `data.get('crossing')` faithfully: an absent tag fails the
list test (the empty string is not in the list) and falls to the `highway`
test, exactly like Python's `None`. -/
def identificar_faixas_pedestres (G : WGraph) : List ℕ :=
  (G.nodes.filter fun nd =>
    nd.2.crossing.getD "" ∈ ["yes", "marked", "zebra", "traffic_signals"]
      ∨ nd.2.highway = some "crossing").map Prod.fst

/-- Step 3 of `calcular_peso_aresta`: the incline tag is truthy, parses after
`replace('%','').strip()`, and its absolute value exceeds 5. -/
def inclineBig (iv : Option TagVal) : Bool :=
  tagTruthy iv &&
    match iv with
    | some (.vstr s) =>
        match pyFloat? (pyStrip (removeChar '%' s)) with
        | some q => |q| > 5
        | none => false
    | some (.vnum q) => |q| > 5
    | none => false

/-- Step 7 of `calcular_peso_aresta`: the width tag is truthy, parses after
`replace('m','').strip()`, and the value is below 1.5 m. -/
def widthSmall (wv : Option TagVal) : Bool :=
  tagTruthy wv &&
    match wv with
    | some (.vstr s) =>
        match pyFloat? (pyStrip (removeChar 'm' s)) with
        | some q => q < 3/2
        | none => false
    | some (.vnum q) => q < 3/2
    | none => false

/-- Core of `calcular_peso_aresta(G, u, v, key, perfil, faixas_pedestres)`
acting on the already-fetched edge dictionary `d` — the body is the literal
sequence of penalty-factor updates of src/graph_weighting.py lines 49-146. -/
def pesoAresta (d : EdgeData) (u v : ℕ) (perfil : MobilityProfile)
    (faixas_pedestres : List ℕ) : ℚ :=
  let peso_base := d.length.getD 1
  let fator : ℚ := 1
  -- 1. wheelchair accessibility
  let fator :=
    if d.wheelchair = some "no" ∧ perfil.requer_acessibilidade then
      fator * perfil.penalizacao_sem_rampa
    else if d.wheelchair = some "limited" then
      fator * (perfil.penalizacao_sem_rampa * (1/2))
    else fator
  -- 2. stairs
  let highway_type := d.highway.getD ""
  let fator := if highway_type = "steps" then fator * perfil.penalizacao_escadas else fator
  -- 3. incline (parse failures are silently skipped)
  let fator := if inclineBig d.incline then fator * perfil.penalizacao_inclinacao else fator
  -- 4. ramp
  let fator :=
    if (strContains highway_type "ramp" || d.ramp = some "yes") ∧ perfil.requer_acessibilidade then
      fator * (7/10)
    else fator
  -- 5. marked pedestrian crossings
  let fator :=
    if perfil.prefere_faixas then
      if u ∉ faixas_pedestres ∧ v ∉ faixas_pedestres then
        fator * perfil.penalizacao_sem_faixa
      else fator * (8/10)
    else fator
  -- 6. surface
  let surface := d.surface.getD ""
  let fator :=
    if perfil.requer_acessibilidade then
      if surface ∈ ["unpaved", "gravel", "dirt", "grass", "sand"] then fator * 2
      else if surface ∈ ["paved", "asphalt", "concrete"] then fator * (9/10)
      else fator
    else fator
  -- 7. width
  let fator :=
    if tagTruthy d.width ∧ perfil.requer_acessibilidade then
      if widthSmall d.width then fator * (3/2) else fator
    else fator
  peso_base * fator

/-- Lookup of `G[u][v][key]`. -/
def edgeData? (G : WGraph) (u v key : ℕ) : Option EdgeData :=
  (G.edges.find? fun e => e.u = u ∧ e.v = v ∧ e.key = key).map WEdge.data

/-- The default edge dictionary (all tags absent); `calcular_peso_aresta` is
only ever called on existing edges, so the default is never reached. -/
def emptyEdgeData : EdgeData :=
  ⟨none, none, none, none, none, none, none, none, []⟩

/-- `calcular_peso_aresta(G, u, v, key, perfil, faixas_pedestres)`. -/
def calcular_peso_aresta (G : WGraph) (u v key : ℕ) (perfil : MobilityProfile)
    (faixas_pedestres : List ℕ) : ℚ :=
  pesoAresta ((edgeData? G u v key).getD emptyEdgeData) u v perfil faixas_pedestres

/-- Per-edge effect of the loop body of `ponderar_grafo`: store the snapshot
`length_original` if not already present, then overwrite `length` with the
custom weight (computed, as in the source, from the pre-update data). -/
def ponderarEdge (perfil : MobilityProfile) (faixas : List ℕ) (e : WEdge) : WEdge :=
  let peso_customizado := pesoAresta e.data e.u e.v perfil faixas
  let d := e.data
  let d := if d.length_original = none
    then { d with length_original := some (d.length.getD 1) } else d
  { e with data := { d with length := some peso_customizado } }

/-- `ponderar_grafo(G, perfil)`: weight every edge of the graph in place
(the debug counter and UI message have no effect on the graph). -/
def ponderar_grafo (G : WGraph) (perfil : MobilityProfile) : WGraph :=
  let faixas_pedestres := identificar_faixas_pedestres G
  { G with edges := G.edges.map (ponderarEdge perfil faixas_pedestres) }

/-- Per-edge effect of `restaurar_pesos_originais`. -/
def restaurarEdge (e : WEdge) : WEdge :=
  match e.data.length_original with
  | some orig => { e with data := { e.data with length := some orig } }
  | none => e

/-- `restaurar_pesos_originais(G)`. -/
def restaurar_pesos_originais (G : WGraph) : WGraph :=
  { G with edges := G.edges.map restaurarEdge }

/-! ## benchmark_algoritmos.py: distance categorisation -/

/-- `categorizar_distancia(dist_metros)`. -/
def categorizar_distancia (dist_metros : ℚ) : String :=
  if dist_metros < 200 then "curta"
  else if dist_metros < 500 then "média"
  else "longa"

/-! ## Module-level interface facts (route_calculator.py vs benchmark_algoritmos.py) -/

/-- The top-level names defined by src/route_calculator.py. -/
def route_calculator_defs : List String :=
  ["extrair_geometria_rota", "calcular_rota", "calcular_rota_completa", "gerar_gpx"]

/-- The positional parameters of `calcular_rota` in src/route_calculator.py
(line 43): it has no further parameters and no defaults. -/
def calcular_rota_params : List String := ["G", "origem", "destino"]

/-- The names src/benchmark_algoritmos.py line 32 imports from
`route_calculator`. -/
def benchmark_route_imports : List String := ["calcular_rota", "heuristica_astar"]

/-- The keyword arguments src/benchmark_algoritmos.py lines 255 and 264 pass
to `calcular_rota` beyond the graph and the two coordinate pairs. -/
def benchmark_calcular_rota_kwargs : List String := ["algoritmo"]

/-! ## C1: the per-edge cost formula -/

/-- Claim-side incline test, following C1's words: "the numeric incline
(a trailing '%' stripped when string-encoded) has absolute value
exceeding 5.0, skipping this step silently on parse failure". -/
def c1InclineBig (iv : Option TagVal) : Bool :=
  match iv with
  | none => false
  | some (.vnum q) => |q| > 5
  | some (.vstr s) =>
      let l := s.toList
      let l := if l.getLast? = some '%' then l.dropLast else l
      match pyFloat? ⟨l⟩ with
      | some q => |q| > 5
      | none => false

/-- The penalty factor exactly as claim C1 builds it: the five listed steps
and nothing else (no surface step, no width step, and no discount branch in
the marked-crossing step). -/
def c1FatorFormula (d : EdgeData) (u v : ℕ) (perfil : MobilityProfile)
    (faixas_pedestres : List ℕ) : ℚ :=
  (if d.wheelchair = some "no" ∧ perfil.requer_acessibilidade then
      perfil.penalizacao_sem_rampa
    else if d.wheelchair = some "limited" then
      perfil.penalizacao_sem_rampa * (1/2)
    else 1) *
  (if d.highway.getD "" = "steps" then perfil.penalizacao_escadas else 1) *
  (if c1InclineBig d.incline then perfil.penalizacao_inclinacao else 1) *
  (if (strContains (d.highway.getD "") "ramp" || d.ramp = some "yes") ∧
      perfil.requer_acessibilidade then (7/10) else 1) *
  (if perfil.prefere_faixas ∧ u ∉ faixas_pedestres ∧ v ∉ faixas_pedestres then
      perfil.penalizacao_sem_faixa
    else 1)

/-- The cost of edge `(u, v, key)` as claim C1 states it: base length times
the five-step factor. -/
def c1PesoFormula (G : WGraph) (u v key : ℕ) (perfil : MobilityProfile)
    (faixas_pedestres : List ℕ) : ℚ :=
  let d := (edgeData? G u v key).getD emptyEdgeData
  (d.length.getD 1) * c1FatorFormula d u v perfil faixas_pedestres

/-- An edge on which every divergence between C1 and the code fires: an
incline string `"5%5"` with an interior `%` (the code's
`replace('%','')` reads 55 and penalizes; a trailing-`%` strip leaves an
unparseable string and skips), gravel surface, width of 1 m, and an
endpoint that is a marked crossing (the 0.8 discount branch). -/
def c1CeEdgeData : EdgeData :=
  { length := some 10, length_original := none, wheelchair := none,
    highway := none, incline := some (.vstr "5%5"), ramp := none,
    surface := some "gravel", width := some (.vnum 1), extra := [] }

/-- A profile that requires accessibility and prefers marked crossings. -/
def c1CeProfile : MobilityProfile :=
  { nome := "cadeirante", requer_acessibilidade := true, prefere_faixas := true,
    penalizacao_sem_rampa := 10, penalizacao_escadas := 10,
    penalizacao_inclinacao := 3, penalizacao_sem_faixa := 3 }

/-- Two-node graph holding the counterexample edge; node 1 is a marked
crossing (`crossing=yes`), so `identificar_faixas_pedestres` returns `[1]`. -/
def c1CeGraph : WGraph :=
  { nodes := [(1, ⟨0, 0, some "yes", none, []⟩), (2, ⟨0, 0, none, none, []⟩)],
    edges := [⟨1, 2, 0, c1CeEdgeData⟩] }

/-- The amended factor: C1's five steps, with the marked-crossing step given
its 0.8 discount branch, followed by the surface step (×2.0 irregular, ×0.9
solid, under an accessibility-requiring profile) and the width step (×1.5
below 1.5 m), in this order. -/
def c1FatorAmended (d : EdgeData) (u v : ℕ) (perfil : MobilityProfile)
    (faixas_pedestres : List ℕ) : ℚ :=
  (if d.wheelchair = some "no" ∧ perfil.requer_acessibilidade then
      perfil.penalizacao_sem_rampa
    else if d.wheelchair = some "limited" then
      perfil.penalizacao_sem_rampa * (1/2)
    else 1) *
  (if d.highway.getD "" = "steps" then perfil.penalizacao_escadas else 1) *
  (if inclineBig d.incline then perfil.penalizacao_inclinacao else 1) *
  (if (strContains (d.highway.getD "") "ramp" || d.ramp = some "yes") ∧
      perfil.requer_acessibilidade then (7/10) else 1) *
  (if perfil.prefere_faixas then
      (if u ∉ faixas_pedestres ∧ v ∉ faixas_pedestres then
        perfil.penalizacao_sem_faixa else (8/10))
    else 1) *
  (if perfil.requer_acessibilidade then
      (if d.surface.getD "" ∈ ["unpaved", "gravel", "dirt", "grass", "sand"] then 2
       else if d.surface.getD "" ∈ ["paved", "asphalt", "concrete"] then (9/10)
       else 1)
    else 1) *
  (if tagTruthy d.width ∧ perfil.requer_acessibilidade then
      (if widthSmall d.width then (3/2) else 1)
    else 1)

/-! ## Concrete data for the C3 counterexample -/

/-- A profile with every penalty at 1 and no accessibility preferences:
`calcular_peso_aresta` leaves the base length unchanged under it. -/
def trivialProfile : MobilityProfile :=
  { nome := "padrao", requer_acessibilidade := false, prefere_faixas := false,
    penalizacao_sem_rampa := 1, penalizacao_escadas := 1,
    penalizacao_inclinacao := 1, penalizacao_sem_faixa := 1 }

/-- A graph whose single edge already carries a `length_original` snapshot
(3) differing from its current cost (5) — e.g. a graph that was weighted
before. -/
def c3CeGraph : WGraph :=
  { nodes := [(1, ⟨0, 0, none, none, []⟩), (2, ⟨0, 0, none, none, []⟩)],
    edges := [⟨1, 2, 0, ⟨some 5, some 3, none, none, none, none, none, none, []⟩⟩] }

/-- An edge dictionary with every weighting-related field erased, for the
frame statement of C10. -/
def stripWeights (d : EdgeData) : EdgeData :=
  { d with length := none, length_original := none }


/-- A fresh one-edge graph (no snapshot) used to witness the round-trip. -/
def c3WitGraph : WGraph :=
  { nodes := [(1, ⟨0, 0, none, none, []⟩), (2, ⟨0, 0, none, none, []⟩)],
    edges := [⟨1, 2, 0, ⟨some 7, none, none, none, none, none, none, none, []⟩⟩] }

/-- A fresh one-edge graph (no snapshot) used to witness double application. -/
def c4WitGraph : WGraph :=
  { nodes := [(1, ⟨0, 0, none, none, []⟩), (2, ⟨0, 0, none, none, []⟩)],
    edges := [⟨1, 2, 0, ⟨some 2, none, none, none, none, none, none, none, []⟩⟩] }


/-! ## route_calculator.py: calcular_rota and its error handling -/

/-- Outcome of an external Python call: a value, or a raised exception
carrying its message. -/
inductive PyResult (α : Type) where
  | ok (val : α)
  | exc (msg : String)
deriving DecidableEq, Repr

/-- Outcome of the NetworkX shortest-path queries (`nx.shortest_path` and
`nx.shortest_path_length`, called with identical arguments):
`NetworkXNoPath` is the distinguished no-path exception. -/
inductive SPOutcome where
  | found (rota_nodes : List ℕ) (distancia : ℚ)
  | noPath
  | exc (msg : String)
deriving DecidableEq, Repr

/-- The environment of external calls `calcular_rota` makes: node resolution
for both endpoints (`ox.distance.nearest_nodes`), the shortest-path query,
and the geometry extraction over the returned node list. -/
structure RotaEnv where
  nearestOrigem : PyResult ℕ
  nearestDestino : PyResult ℕ
  shortest : ℕ → ℕ → SPOutcome
  extract : List ℕ → PyResult (List (ℚ × ℚ))

/-- Observable behaviour of one `calcular_rota` call: the returned pair
(`(None, None)` becomes two `none`s), the `st.error` message displayed, and
the exception allowed to propagate to the caller, if any. -/
structure CallResult where
  pontos : Option (List (ℚ × ℚ))
  distancia : Option ℚ
  errorShown : Option String
  raised : Option String
deriving DecidableEq, Repr

/-- `calcular_rota(G, origem, destino)` of src/route_calculator.py lines
43-73: resolve both endpoints, query the shortest path, extract geometry;
`NetworkXNoPath` yields `(None, None)` silently, every other exception is
absorbed into an `st.error` message and `(None, None)`. -/
def calcular_rota (env : RotaEnv) : CallResult :=
  match env.nearestOrigem with
  | .exc m => ⟨none, none, some ("⚠️ Erro ao calcular rota: " ++ m), none⟩
  | .ok no_origem =>
    match env.nearestDestino with
    | .exc m => ⟨none, none, some ("⚠️ Erro ao calcular rota: " ++ m), none⟩
    | .ok no_destino =>
      match env.shortest no_origem no_destino with
      | .noPath => ⟨none, none, none, none⟩
      | .exc m => ⟨none, none, some ("⚠️ Erro ao calcular rota: " ++ m), none⟩
      | .found rota_nodes distancia =>
        match env.extract rota_nodes with
        | .exc m => ⟨none, none, some ("⚠️ Erro ao calcular rota: " ++ m), none⟩
        | .ok pontos_rota => ⟨some pontos_rota, some distancia, none, none⟩

/-- Environment in which the origin coordinate cannot be resolved to a
graph node: the resolver raises. -/
def c6CeEnv : RotaEnv :=
  { nearestOrigem := .exc "Cannot resolve origin to a graph node",
    nearestDestino := .ok 2,
    shortest := fun a b => .found [a, b] 1,
    extract := fun _ => .ok [] }

/-- Environment in which both endpoints resolve but no path exists. -/
def c6WitEnv : RotaEnv :=
  { nearestOrigem := .ok 1, nearestDestino := .ok 2,
    shortest := fun _ _ => .noPath,
    extract := fun _ => .ok [] }

/-! ## benchmark_algoritmos.py: statistics and measurement -/

/-- Python `sum` over rationals. -/
def pySum (l : List ℚ) : ℚ := l.foldl (· + ·) 0

/-- `statistics.mean`. -/
def pyMean (l : List ℚ) : ℚ := pySum l / l.length

/-- Python `sorted` (ascending). -/
def pySorted (l : List ℚ) : List ℚ := l.mergeSort

/-- `statistics.median`: middle element, or mean of the two middles. -/
def pyMedian (l : List ℚ) : ℚ :=
  let s := pySorted l
  let n := s.length
  if n % 2 = 1 then s.getD (n / 2) 0
  else (s.getD (n / 2 - 1) 0 + s.getD (n / 2) 0) / 2

/-- Python `min` on a nonempty list (0 on the unreachable empty case). -/
def pyMin : List ℚ → ℚ
  | [] => 0
  | h :: t => t.foldl min h

/-- Python `max` on a nonempty list (0 on the unreachable empty case). -/
def pyMax : List ℚ → ℚ
  | [] => 0
  | h :: t => t.foldl max h

/-- Sample variance (denominator `n - 1`), the square of `statistics.stdev`. -/
def sampleVariance (l : List ℚ) : ℚ :=
  pySum (l.map fun x => (x - pyMean l) ^ 2) / ((l.length : ℚ) - 1)

/-- `statistics.stdev` (real-valued: Python takes a floating square root). -/
noncomputable def pyStdev (l : List ℚ) : ℝ := Real.sqrt (sampleVariance l)

/-- `statistics.quantiles(data, n=n)` with the default `method='exclusive'`:
cut points at positions `i*(ld+1)/n` (`i = 1..n-1`), linearly interpolated
between the neighbouring order statistics, with the index clamped to
`[1, ld-1]`. -/
def pyQuantiles (l : List ℚ) (n : ℕ) : List ℚ :=
  let data := pySorted l
  let ld := data.length
  let m := ld + 1
  (List.range (n - 1)).map fun i0 =>
    let i := i0 + 1
    let j0 := i * m / n
    let delta := i * m % n
    let j := if j0 < 1 then 1 else if j0 > ld - 1 then ld - 1 else j0
    (data.getD (j - 1) 0 * ((n : ℚ) - (delta : ℚ)) + data.getD j 0 * (delta : ℚ)) / n

/-- The 95th-percentile expression of `medir_algoritmo_completo` line 305:
`statistics.quantiles(tempos, n=20)[18] if len(tempos) >= 20 else max(tempos)`. -/
def percentil95 (tempos : List ℚ) : ℚ :=
  if tempos.length ≥ 20 then (pyQuantiles tempos 20).getD 18 0 else pyMax tempos

/-- The 99th-percentile expression of line 306:
`statistics.quantiles(tempos, n=100)[98] if len(tempos) >= 100 else max(tempos)`. -/
def percentil99 (tempos : List ℚ) : ℚ :=
  if tempos.length ≥ 100 then (pyQuantiles tempos 100).getD 98 0 else pyMax tempos

/-- Claim-side definition (C8's words): the nearest-rank 95th percentile,
`sorted(l)[ceil(95/100 * len) - 1]`. -/
def nearestRank95 (l : List ℚ) : ℚ :=
  let s := pySorted l
  s.getD (Nat.ceil ((95 : ℚ) * s.length / 100) - 1) 0

/-- The dataclass `MedicaoAlgoritmo` of benchmark_algoritmos.py lines 42-58. -/
structure MedicaoAlgoritmo where
  algoritmo : String
  sucesso : Bool
  tempos_ms : List ℚ
  tempo_medio_ms : ℚ
  tempo_mediano_ms : ℚ
  tempo_min_ms : ℚ
  tempo_max_ms : ℚ
  desvio_padrao_ms : ℝ
  percentil_95_ms : ℚ
  percentil_99_ms : ℚ
  distancia : ℚ
  num_pontos : ℕ
  nos_explorados : ℕ
  erro : Option String

/-- The all-zero unsuccessful measurement record the source builds (twice)
on failure, with the given error description. -/
def medicaoFalha (algoritmo erro : String) : MedicaoAlgoritmo :=
  { algoritmo := algoritmo, sucesso := false, tempos_ms := [],
    tempo_medio_ms := 0, tempo_mediano_ms := 0, tempo_min_ms := 0,
    tempo_max_ms := 0, desvio_padrao_ms := 0, percentil_95_ms := 0,
    percentil_99_ms := 0, distancia := 0, num_pontos := 0,
    nos_explorados := 0, erro := some erro }

/-- One timed repetition of the measurement loop: the `calcular_rota`
result (`None` on no path) and the elapsed wall-clock milliseconds. -/
structure RepInvocation where
  resultado : Option (List (ℚ × ℚ) × ℚ)
  tempo_ms : ℚ

/-- Result of the measurement loop of lines 262-287. -/
inductive Coleta where
  | semCaminho
  | ok (tempos : List ℚ) (pontos_final : Option (List (ℚ × ℚ)))
      (distancia_final : Option ℚ)

/-- The measurement loop: append each repetition's time, remember the last
result, and stop at the first repetition that finds no path. -/
def coletarTempos : List RepInvocation → Coleta
  | [] => .ok [] none none
  | r :: rest =>
    match r.resultado with
    | none => .semCaminho
    | some (pontos, distancia) =>
      match coletarTempos rest with
      | .semCaminho => .semCaminho
      | .ok tempos pf df =>
          .ok (r.tempo_ms :: tempos)
            (some ((pf.getD pontos)))
            (some ((df.getD distancia)))

/-- `medir_algoritmo_completo` of lines 228-328, parameterised by the timed
repetitions (warm-up runs are discarded by the source and have no effect on
the result) and by the exploration count of the instrumented search.  With
no repetitions, `statistics.mean([])` raises `StatisticsError`, which the
function's outer `except` absorbs into a failure record. -/
noncomputable def medir_algoritmo_completo (algoritmo : String)
    (reps : List RepInvocation) (nos_explorados : ℕ) : MedicaoAlgoritmo :=
  match coletarTempos reps with
  | .semCaminho => medicaoFalha algoritmo "Sem caminho"
  | .ok tempos pontos_final distancia_final =>
    if tempos = [] then
      medicaoFalha algoritmo "mean requires at least one data point"
    else
      { algoritmo := algoritmo, sucesso := true, tempos_ms := tempos,
        tempo_medio_ms := pyMean tempos, tempo_mediano_ms := pyMedian tempos,
        tempo_min_ms := pyMin tempos, tempo_max_ms := pyMax tempos,
        desvio_padrao_ms := if tempos.length > 1 then pyStdev tempos else 0,
        percentil_95_ms := percentil95 tempos,
        percentil_99_ms := percentil99 tempos,
        distancia := distancia_final.getD 0,
        num_pontos := (pontos_final.getD []).length,
        nos_explorados := nos_explorados, erro := none }

/-- The dataclass `ResultadoComparacao` of lines 61-72. -/
structure ResultadoComparacao where
  origem : String
  destino : String
  distancia_euclidiana : ℚ
  categoria_distancia : String
  dijkstra : MedicaoAlgoritmo
  astar : MedicaoAlgoritmo
  speedup_medio : ℚ
  speedup_mediano : ℚ
  economia_nos_pct : ℚ

/-- The accept/reject step of `BenchmarkRotasAprimorado.executar` (lines
408-437) for one measured pair, acting on the accepted-results list and the
two counters: an unsuccessful measurement counts the pair invalid and
records nothing; otherwise the comparison record is appended. -/
def registrarPar (resultados : List ResultadoComparacao)
    (pares_testados pares_invalidos : ℕ) (origem destino : String)
    (dist_euclidiana : ℚ) (dijkstra astar : MedicaoAlgoritmo) :
    List ResultadoComparacao × ℕ × ℕ :=
  if ¬(dijkstra.sucesso ∧ astar.sucesso) then
    (resultados, pares_testados, pares_invalidos + 1)
  else
    let speedup_medio :=
      if astar.tempo_medio_ms > 0 then dijkstra.tempo_medio_ms / astar.tempo_medio_ms else 0
    let speedup_mediano :=
      if astar.tempo_mediano_ms > 0 then
        dijkstra.tempo_mediano_ms / astar.tempo_mediano_ms else 0
    let economia_nos :=
      if dijkstra.nos_explorados > 0 then
        100 * (1 - (astar.nos_explorados : ℚ) / (dijkstra.nos_explorados : ℚ)) else 0
    let registro : ResultadoComparacao :=
      { origem := origem, destino := destino,
        distancia_euclidiana := dist_euclidiana,
        categoria_distancia := categorizar_distancia dist_euclidiana,
        dijkstra := dijkstra, astar := astar,
        speedup_medio := speedup_medio, speedup_mediano := speedup_mediano,
        economia_nos_pct := economia_nos }
    (resultados ++ [registro], pares_testados + 1, pares_invalidos)


/-- The 20-element timing sample `[1, 2, …, 20]`. -/
def c8CeList : List ℚ :=
  [1, 2, 3, 4, 5, 6, 7, 8, 9, 10, 11, 12, 13, 14, 15, 16, 17, 18, 19, 20]


/-! ## benchmark_algoritmos.py: the instrumented searches (contar_nos_*) -/

/-- First-occurrence deduplication with a seen-accumulator: the order in
which `G.neighbors(u)` yields the distinct successors of `u`. -/
def firstDedupAux (seen : List ℕ) : List ℕ → List ℕ
  | [] => []
  | a :: l => if a ∈ seen then firstDedupAux seen l
              else a :: firstDedupAux (a :: seen) l

/-- `G.neighbors(u)` on the multi-digraph: each successor once, in
first-edge order. -/
def sucessores (G : WGraph) (u : ℕ) : List ℕ :=
  firstDedupAux [] ((G.edges.filter fun e => e.u = u).map WEdge.v)

/-- The `length` values (default 1.0) of the parallel edges `u → v`. -/
def edgeLengths (G : WGraph) (u v : ℕ) : List ℚ :=
  (G.edges.filter fun e => e.u = u ∧ e.v = v).map fun e => e.data.length.getD 1

/-- The inner minimum-weight loop over `G[u][v]` (lines 153-158 / 203-208):
the least parallel-edge length.  The default is never reached: the loop is
only run for `v` a successor of `u`. -/
def pesoMinimo (G : WGraph) (u v : ℕ) : ℚ := (edgeLengths G u v).min?.getD 1

/-- Python dict lookup on the distance map. -/
def distLookup (l : List (ℕ × ℚ)) (v : ℕ) : Option ℚ :=
  match l with
  | [] => none
  | (k, q) :: t => if v = k then some q else distLookup t v

/-- The mutable state of both counting searches: the distance dict, the two
(always equal) settled sets — kept as insertion-ordered duplicate-free
lists — and the lazy heap. -/
structure SearchState where
  dist : List (ℕ × ℚ)
  visitados : List ℕ
  explorados : List ℕ
  heap : List (ℚ × ℕ)
deriving DecidableEq, Repr

/-- The least `(priority, node)` pair of the heap in the lexicographic tuple
order `heapq` uses; equal pairs are interchangeable. -/
def heapMin : List (ℚ × ℕ) → Option (ℚ × ℕ)
  | [] => none
  | a :: t =>
    match heapMin t with
    | none => some a
    | some b => some (if a.1 < b.1 ∨ (a.1 = b.1 ∧ a.2 ≤ b.2) then a else b)

/-- The body of the neighbour-relaxation loop shared by
`contar_nos_dijkstra` (lines 150-164, `astarMode = false`, pushed key
`nova_dist`) and `contar_nos_astar` (lines 200-217, `astarMode = true`,
pushed key `nova_dist + h v`): skip settled neighbours, and on improvement
store the new distance and push the keyed entry. -/
def relaxStep (G : WGraph) (h : ℕ → ℚ) (astarMode : Bool) (u : ℕ) (base : ℚ)
    (st : SearchState) (v : ℕ) : SearchState :=
  if v ∈ st.visitados then st
  else
    let peso_minimo := pesoMinimo G u v
    let nova_dist := base + peso_minimo
    let melhora :=
      match distLookup st.dist v with
      | none => true
      | some dv => decide (nova_dist < dv)
    if melhora then
      { st with dist := (v, nova_dist) :: st.dist,
                heap := ((if astarMode then nova_dist + h v else nova_dist), v) :: st.heap }
    else st

/-- The neighbour-relaxation loop: fold the step over `G.neighbors(u)`. -/
def relaxar (G : WGraph) (h : ℕ → ℚ) (astarMode : Bool) (u : ℕ) (base : ℚ)
    (s : SearchState) : SearchState :=
  (sucessores G u).foldl (relaxStep G h astarMode u base) s

/-- The `while heap:` loop of both counting searches, with explicit fuel
(each iteration pops exactly one entry, and at most
`1 + |edges|` entries are ever pushed, so `searchFuel` below suffices):
pop the least entry, skip it if stale, settle it, stop on the destination,
otherwise relax the successors — from the popped priority in Dijkstra mode
and from `dist[u]` in A* mode. -/
def buscaLoop (G : WGraph) (destino : ℕ) (h : ℕ → ℚ) (astarMode : Bool) :
    ℕ → SearchState → SearchState
  | 0, s => s
  | fuel + 1, s =>
    match heapMin s.heap with
    | none => s
    | some du =>
      let rest := s.heap.erase du
      if du.2 ∈ s.visitados then
        buscaLoop G destino h astarMode fuel { s with heap := rest }
      else
        let s1 : SearchState :=
          { s with visitados := du.2 :: s.visitados,
                   explorados := du.2 :: s.explorados, heap := rest }
        if du.2 = destino then s1
        else
          let base := if astarMode then (distLookup s1.dist du.2).getD 0 else du.1
          buscaLoop G destino h astarMode fuel (relaxar G h astarMode du.2 base s1)

/-- `dist = {origem: 0}; heap = [(0, origem)]`. -/
def estadoInicial (origem : ℕ) : SearchState := ⟨[(origem, 0)], [], [], [(0, origem)]⟩

/-- Fuel ample for the loop: one initial push plus at most one push per
graph edge bounds the total number of pops. -/
def searchFuel (G : WGraph) : ℕ := G.edges.length + 2

/-- The full run of `contar_nos_dijkstra`'s search (zero heuristic). -/
def dijkstraRun (G : WGraph) (origem_id destino_id : ℕ) : SearchState :=
  buscaLoop G destino_id (fun _ => 0) false (searchFuel G) (estadoInicial origem_id)

/-- The full run of `contar_nos_astar`'s search, parameterised by the
heuristic the source imports (`heuristica_astar`, see below). -/
def astarRun (G : WGraph) (origem_id destino_id : ℕ) (h : ℕ → ℚ) : SearchState :=
  buscaLoop G destino_id h true (searchFuel G) (estadoInicial origem_id)

/-- `contar_nos_dijkstra(G, origem_id, destino_id)`: the number of distinct
settled nodes (`len(explorados)`). -/
def contar_nos_dijkstra (G : WGraph) (origem_id destino_id : ℕ) : ℕ :=
  (dijkstraRun G origem_id destino_id).explorados.length

/-- `contar_nos_astar(G, origem_id, destino_id)`, parameterised by the
heuristic function. -/
def contar_nos_astar (G : WGraph) (origem_id destino_id : ℕ) (h : ℕ → ℚ) : ℕ :=
  (astarRun G origem_id destino_id h).explorados.length

/-- Modelled from the spec: `heuristica_astar` is not under src/ (the
benchmark imports it from route_calculator, which lacks it).  Per spec §4.2
it is the straight-line geographic distance from the candidate node to the
destination in metres under an equirectangular approximation: both deltas
scaled by 111000 m/degree, the longitude delta additionally by the cosine
of the node's latitude in radians, combined Euclideanly. -/
noncomputable def heuristica_astar (G : WGraph) (v destino_id : ℕ) : ℝ :=
  let nd1 := ((G.nodes.find? fun nd => nd.1 = v).getD (v, ⟨0, 0, none, none, []⟩)).2
  let nd2 := ((G.nodes.find? fun nd => nd.1 = destino_id).getD
    (destino_id, ⟨0, 0, none, none, []⟩)).2
  let metros_por_grau_lat : ℝ := 111000
  let metros_por_grau_lon : ℝ := 111000 * Real.cos ((nd1.y : ℝ) * Real.pi / 180)
  let delta_lat := ((nd2.y : ℝ) - (nd1.y : ℝ)) * metros_por_grau_lat
  let delta_lon := ((nd2.x : ℝ) - (nd1.x : ℝ)) * metros_por_grau_lon
  Real.sqrt (delta_lat ^ 2 + delta_lon ^ 2)

/-! ## C5: walks, minimum paths, and the counterexample graph -/

/-- `v` is a successor of `u`. -/
def Adjacente (G : WGraph) (u v : ℕ) : Prop := v ∈ sucessores G u

/-- A walk: consecutive nodes joined by edges. -/
def IsWalk (G : WGraph) (w : List ℕ) : Prop := w.Chain' (Adjacente G)

/-- Total cost of a walk under the per-step minimum parallel-edge weight —
the weight function both the searches and NetworkX's multigraph
shortest-path use. -/
def walkCost (G : WGraph) : List ℕ → ℚ
  | [] => 0
  | [_] => 0
  | a :: b :: t => pesoMinimo G a b + walkCost G (b :: t)

/-- Modelled from the spec: the path returned by `nx.shortest_path` in
`calcular_rota` — a duplicate-free walk from origin to destination of
minimal total cost among all such walks. -/
def IsMinPath (G : WGraph) (o d : ℕ) (p : List ℕ) : Prop :=
  IsWalk G p ∧ p.head? = some o ∧ p.getLast? = some d ∧ p.Nodup ∧
    ∀ w : List ℕ, IsWalk G w → w.head? = some o → w.getLast? = some d →
      walkCost G p ≤ walkCost G w

/-- Every edge weight (with the 1.0 default) is strictly positive. -/
def PesosPositivos (G : WGraph) : Prop := ∀ e ∈ G.edges, 0 < e.data.length.getD 1

/-- Counterexample graph for C5: a three-edge chain 1→2→3→4 of length 1
each (the unique cheapest route, cost 3) plus a direct edge 1→4 of length
10.  All nodes sit on the equator; nodes 2 and 3 lie one degree of
longitude away from the destination 4, so the spec heuristic rates them
111000 m away while the direct edge costs only 10. -/
def c5CeGraph : WGraph :=
  { nodes := [(1, ⟨0, 0, none, none, []⟩), (2, ⟨0, 1, none, none, []⟩),
              (3, ⟨0, 1, none, none, []⟩), (4, ⟨0, 0, none, none, []⟩)],
    edges := [⟨1, 2, 0, ⟨some 1, none, none, none, none, none, none, none, []⟩⟩,
              ⟨2, 3, 0, ⟨some 1, none, none, none, none, none, none, none, []⟩⟩,
              ⟨3, 4, 0, ⟨some 1, none, none, none, none, none, none, none, []⟩⟩,
              ⟨1, 4, 0, ⟨some 10, none, none, none, none, none, none, none, []⟩⟩] }

/-- The exact rational values of `heuristica_astar` on the counterexample
graph (on the equator the cosine is 1 and the square root degenerates). -/
def c5CeHeur (v : ℕ) : ℚ := if v = 2 ∨ v = 3 then 111000 else 0

/-- Witness graph for C5: the spec §8 line graph A–B–C–D with three edges
of length 10 (nodes 1, 2, 3, 4). -/
def c5WitGraph : WGraph :=
  { nodes := [(1, ⟨0, 0, none, none, []⟩), (2, ⟨0, 0, none, none, []⟩),
              (3, ⟨0, 0, none, none, []⟩), (4, ⟨0, 0, none, none, []⟩)],
    edges := [⟨1, 2, 0, ⟨some 10, none, none, none, none, none, none, none, []⟩⟩,
              ⟨2, 3, 0, ⟨some 10, none, none, none, none, none, none, none, []⟩⟩,
              ⟨3, 4, 0, ⟨some 10, none, none, none, none, none, none, none, []⟩⟩] }


/-- Cost of the walk prefix `p[0..i]`. -/
def prefixCost (G : WGraph) (p : List ℕ) (i : ℕ) : ℚ := walkCost G (p.take (i + 1))

/-- Dijkstra-mode loop invariant, relative to the origin `o`, the
destination `d` and a fixed reference walk `p` from `o` to `d`: the settled
lists mirror each other and are duplicate-free; every heap key dominates the
node's known distance; known distances are nonnegative, realizable walk
costs, and zero at the origin; unsettled known nodes keep a heap entry at
their current distance; settled reference-walk nodes are bounded by their
prefix cost, the successor of a settled reference node is settled or
reached within its prefix cost, and once the destination settles the whole
reference walk is settled. -/
structure DijInv (G : WGraph) (o d : ℕ) (p : List ℕ) (s : SearchState) : Prop where
  mirror : s.visitados = s.explorados
  nodupVis : s.visitados.Nodup
  heapDist : ∀ kv ∈ s.heap, ∃ dv, distLookup s.dist kv.2 = some dv ∧ dv ≤ kv.1
  distNonneg : ∀ v dv, distLookup s.dist v = some dv → 0 ≤ dv
  distOrigem : distLookup s.dist o = some 0
  distRealiza : ∀ v dv, distLookup s.dist v = some dv →
    ∃ w, IsWalk G w ∧ w.head? = some o ∧ w.getLast? = some v ∧ walkCost G w = dv
  unsettledHeap : ∀ v dv, v ∉ s.visitados → distLookup s.dist v = some dv →
    (dv, v) ∈ s.heap
  settledBound : ∀ i, (hi : i < p.length) → p.get ⟨i, hi⟩ ∈ s.visitados →
    ∃ dv, distLookup s.dist (p.get ⟨i, hi⟩) = some dv ∧ dv ≤ prefixCost G p i
  nextBound : ∀ i, (hi : i + 1 < p.length) →
    p.get ⟨i, Nat.lt_of_succ_lt hi⟩ ∈ s.visitados →
    p.get ⟨i + 1, hi⟩ ∈ s.visitados ∨
      ∃ dv, distLookup s.dist (p.get ⟨i + 1, hi⟩) = some dv ∧
        dv ≤ prefixCost G p (i + 1)
  destAll : d ∈ s.visitados → ∀ x ∈ p, x ∈ s.visitados


/-! # Theorems -/

/-- A conditional multiplicative update factors as multiplication by a
conditional coefficient. -/
theorem ite_mul_right (c : Prop) [Decidable c] (f k : ℚ) :
    (if c then f * k else f) = f * (if c then k else 1) := by
  split_ifs <;> ring

/-- Same, for an if/elif update. -/
theorem ite_ite_mul_right (c₁ c₂ : Prop) [Decidable c₁] [Decidable c₂] (f k₁ k₂ : ℚ) :
    (if c₁ then f * k₁ else if c₂ then f * k₂ else f) =
      f * (if c₁ then k₁ else if c₂ then k₂ else 1) := by
  split_ifs <;> ring

/-- Same, for a guarded two-way update (the marked-crossing step). -/
theorem ite_pair_mul_right (p c : Prop) [Decidable p] [Decidable c] (f k₁ k₂ : ℚ) :
    (if p then (if c then f * k₁ else f * k₂) else f) =
      f * (if p then (if c then k₁ else k₂) else 1) := by
  split_ifs <;> ring

/-- Same, for a guarded if/elif update (the surface step). -/
theorem ite_triple_mul_right (p c₁ c₂ : Prop) [Decidable p] [Decidable c₁]
    [Decidable c₂] (f k₁ k₂ : ℚ) :
    (if p then (if c₁ then f * k₁ else if c₂ then f * k₂ else f) else f) =
      f * (if p then (if c₁ then k₁ else if c₂ then k₂ else 1) else 1) := by
  split_ifs <;> ring

/-- Same, for a guarded one-way update (the width step). -/
theorem ite_guard_mul_right (p c : Prop) [Decidable p] [Decidable c] (f k : ℚ) :
    (if p then (if c then f * k else f) else f) =
      f * (if p then (if c then k else 1) else 1) := by
  split_ifs <;> ring

/-- The sequential penalty accumulation of `pesoAresta` equals the product of
the seven per-step coefficients. -/
theorem pesoAresta_factored (d : EdgeData) (u v : ℕ) (perfil : MobilityProfile)
    (faixas_pedestres : List ℕ) :
    pesoAresta d u v perfil faixas_pedestres =
      (d.length.getD 1) * c1FatorAmended d u v perfil faixas_pedestres := by
  simp only [pesoAresta, c1FatorAmended, ite_mul_right,
    ite_ite_mul_right, ite_pair_mul_right, ite_triple_mul_right, ite_guard_mul_right]
  ring_nf

/-- C1 amended: for every edge and profile, `calcular_peso_aresta` returns
the base length (default 1.0) times the amended seven-step factor. -/
theorem c1_amended_peso_aresta (G : WGraph) (u v key : ℕ)
    (perfil : MobilityProfile) (faixas_pedestres : List ℕ) :
    calcular_peso_aresta G u v key perfil faixas_pedestres =
      (((edgeData? G u v key).getD emptyEdgeData).length.getD 1) *
        c1FatorAmended ((edgeData? G u v key).getD emptyEdgeData) u v
          perfil faixas_pedestres := by
  unfold calcular_peso_aresta
  exact pesoAresta_factored _ _ _ _ _

/-- C2: the spec requires the route calculator to expose an algorithm
selector and a heuristic `heuristica_astar`; in src/route_calculator.py
neither exists, while the benchmark imports the heuristic and passes the
selector keyword — the import of `benchmark_algoritmos` raises `ImportError`
and the keyword call would raise `TypeError`.  The code contradicts its own
caller; the spec records the intent. -/
theorem c2_selector_and_heuristic_missing :
    "heuristica_astar" ∈ benchmark_route_imports ∧
    "heuristica_astar" ∉ route_calculator_defs ∧
    "algoritmo" ∈ benchmark_calcular_rota_kwargs ∧
    "algoritmo" ∉ calcular_rota_params := by decide

/-! ## C9: distance categorisation -/

/-- C9: `categorizar_distancia` returns "curta" exactly below 200 m, "média"
exactly on [200, 500), "longa" exactly from 500 m on; the boundaries 200.0
and 500.0 fall in "média" and "longa" respectively. -/
theorem c9_categorizar_distancia (d : ℚ) (_hd : 0 ≤ d) :
    (categorizar_distancia d = "curta" ↔ d < 200) ∧
    (categorizar_distancia d = "média" ↔ 200 ≤ d ∧ d < 500) ∧
    (categorizar_distancia d = "longa" ↔ 500 ≤ d) ∧
    categorizar_distancia 200 = "média" ∧
    categorizar_distancia 500 = "longa" := by
  refine ⟨?_, ?_, ?_, by decide, by decide⟩ <;>
    · unfold categorizar_distancia
      split_ifs with h1 h2 <;> simp_all <;> first | decide | linarith

/-- Witness for C9 at the boundary input 200. -/
theorem c9_categorizar_distancia_witness :
    (0:ℚ) ≤ 200 ∧ (categorizar_distancia 200 = "média" ↔ 200 ≤ (200:ℚ) ∧ (200:ℚ) < 500) :=
  ⟨by decide, (c9_categorizar_distancia 200 (by decide)).2.1⟩

/-- Counterexample to C1 as stated: on the edge above the code multiplies by
3 (incline `"5%5"` reads 55 once every `%` is removed), 0.8 (crossing
present), 2.0 (gravel) and 1.5 (narrow width) — penalty 7.2, cost 72 —
while the claim's five-step factor (its trailing-`%` incline parse fails
silently) is 1, cost 10. -/
theorem c1_counterexample :
    calcular_peso_aresta c1CeGraph 1 2 0 c1CeProfile
        (identificar_faixas_pedestres c1CeGraph) = 72 ∧
    c1PesoFormula c1CeGraph 1 2 0 c1CeProfile
        (identificar_faixas_pedestres c1CeGraph) = 10 ∧
    calcular_peso_aresta c1CeGraph 1 2 0 c1CeProfile
        (identificar_faixas_pedestres c1CeGraph) ≠
      c1PesoFormula c1CeGraph 1 2 0 c1CeProfile
        (identificar_faixas_pedestres c1CeGraph) := by
  have hE : edgeData? c1CeGraph 1 2 0 = some c1CeEdgeData := rfl
  have hF : identificar_faixas_pedestres c1CeGraph = [1] := rfl
  have hq : pyFloat? (pyStrip (removeChar '%' "5%5")) = some ((1 : ℚ) * ((55 : ℕ) : ℚ)) := rfl
  have hinc : inclineBig (some (.vstr "5%5")) = true := by
    simp only [inclineBig, hq]
    norm_num [tagTruthy]
    decide
  have hincC : c1InclineBig (some (.vstr "5%5")) = false := rfl
  have h72 : calcular_peso_aresta c1CeGraph 1 2 0 c1CeProfile
      (identificar_faixas_pedestres c1CeGraph) = 72 := by
    unfold calcular_peso_aresta
    rw [hF, pesoAresta_factored, hE]
    norm_num [c1FatorAmended, c1CeEdgeData, c1CeProfile, hinc, widthSmall,
      tagTruthy, strContains, listContainsSub, Option.getD]
    decide
  have h10 : c1PesoFormula c1CeGraph 1 2 0 c1CeProfile
      (identificar_faixas_pedestres c1CeGraph) = 10 := by
    rw [hF]
    norm_num [c1PesoFormula, hE, c1FatorFormula, c1CeEdgeData, c1CeProfile,
      hincC, strContains, listContainsSub, Option.getD]
    decide
  refine ⟨h72, h10, ?_⟩
  rw [h72, h10]
  norm_num

/-! ## C3, C4, C10: transform round-trip, double application, frame -/

/-- `ponderarEdge` on an edge without a snapshot stores the effective current
cost as the snapshot. -/
theorem ponderarEdge_fresh (perfil : MobilityProfile) (faixas : List ℕ)
    (e : WEdge) (h : e.data.length_original = none) :
    (ponderarEdge perfil faixas e).data.length_original =
      some (e.data.length.getD 1) := by
  simp [ponderarEdge, h]

/-- `ponderarEdge` never erases a snapshot: afterwards one is always set. -/
theorem ponderarEdge_isSome (perfil : MobilityProfile) (faixas : List ℕ)
    (e : WEdge) : ((ponderarEdge perfil faixas e).data.length_original).isSome := by
  unfold ponderarEdge
  cases h : e.data.length_original <;> simp [h]

/-- `ponderarEdge` on an edge with a snapshot keeps the snapshot. -/
theorem ponderarEdge_keeps (perfil : MobilityProfile) (faixas : List ℕ)
    (e : WEdge) (q : ℚ) (h : e.data.length_original = some q) :
    (ponderarEdge perfil faixas e).data.length_original = some q := by
  simp [ponderarEdge, h]

/-- `restaurarEdge` is the identity on edges without a snapshot. -/
theorem restaurarEdge_noop (e : WEdge) (h : e.data.length_original = none) :
    restaurarEdge e = e := by
  simp [restaurarEdge, h]

/-- C3 counterexample: on a graph whose edge already has a snapshot (3) and
current cost 5, weighting with the trivial profile keeps cost 5, but the
restore then yields 3 — not the cost the edge had before this transform. -/
theorem c3_counterexample :
    ((restaurar_pesos_originais (ponderar_grafo c3CeGraph trivialProfile)).edges.map
        fun e => e.data.length) = [some 3] ∧
    (c3CeGraph.edges.map fun e => e.data.length) = [some 5] ∧
    ((restaurar_pesos_originais (ponderar_grafo c3CeGraph trivialProfile)).edges.map
        fun e => e.data.length) ≠
      (c3CeGraph.edges.map fun e => e.data.length) := by
  refine ⟨?_, by decide, ?_⟩ <;>
    simp [restaurar_pesos_originais, ponderar_grafo, c3CeGraph, restaurarEdge,
      ponderarEdge, pesoAresta, identificar_faixas_pedestres, trivialProfile,
      inclineBig, widthSmall, tagTruthy, strContains, listContainsSub]

/-- C3 amended: on a graph none of whose edges was ever transformed (no
`length_original` snapshots), weighting and then restoring reproduces every
edge's effective current cost (`length`, default 1.0) exactly — restoration
is a plain assignment of the stored snapshot — and on such a graph the
restore operation alone is the identity. -/
theorem c3_amended_round_trip (G : WGraph) (perfil : MobilityProfile)
    (h : ∀ e ∈ G.edges, e.data.length_original = none) :
    ((restaurar_pesos_originais (ponderar_grafo G perfil)).edges.map
        fun e => e.data.length.getD 1) =
      (G.edges.map fun e => e.data.length.getD 1) ∧
    restaurar_pesos_originais G = G := by
  constructor
  · unfold restaurar_pesos_originais ponderar_grafo
    simp only [List.map_map]
    refine List.map_congr_left fun e he => ?_
    have hsnap := ponderarEdge_fresh perfil (identificar_faixas_pedestres G) e (h e he)
    simp [Function.comp, restaurarEdge, hsnap]
  · unfold restaurar_pesos_originais
    have hmap : G.edges.map restaurarEdge = G.edges := by
      have hid : ∀ e ∈ G.edges, restaurarEdge e = id e :=
        fun e he => restaurarEdge_noop e (h e he)
      rw [List.map_congr_left hid, List.map_id]
    rw [hmap]

/-- Witness for C3 amended on a fresh one-edge graph. -/
theorem c3_amended_round_trip_witness :
    (∀ e ∈ c3WitGraph.edges, e.data.length_original = none) ∧
    (((restaurar_pesos_originais (ponderar_grafo c3WitGraph trivialProfile)).edges.map
        fun e => e.data.length.getD 1) =
      (c3WitGraph.edges.map fun e => e.data.length.getD 1) ∧
    restaurar_pesos_originais c3WitGraph = c3WitGraph) :=
  ⟨by decide, c3_amended_round_trip c3WitGraph trivialProfile (by decide)⟩

/-- Weighting does not touch the node list, so the marked-crossing set is
unchanged by it. -/
theorem identificar_faixas_ponderar (G : WGraph) (perfil : MobilityProfile) :
    identificar_faixas_pedestres (ponderar_grafo G perfil) =
      identificar_faixas_pedestres G := rfl

/-- The live cost written by `ponderarEdge` is the transform of the edge
data it was given. -/
theorem ponderarEdge_length (perfil : MobilityProfile) (faixas : List ℕ)
    (e : WEdge) :
    (ponderarEdge perfil faixas e).data.length =
      some (pesoAresta e.data e.u e.v perfil faixas) := by
  cases h : e.data.length_original <;> simp [ponderarEdge, h]

/-- C4: a second weighting pass never overwrites the stored snapshot — it
still holds the pre-first-transform cost — while the live cost after the
second pass is the transform recomputed with the first pass's output as the
base length. -/
theorem c4_double_application (G : WGraph) (p1 p2 : MobilityProfile)
    (h : ∀ e ∈ G.edges, e.data.length_original = none) :
    ((ponderar_grafo (ponderar_grafo G p1) p2).edges.map
        fun e => e.data.length_original) =
      ((ponderar_grafo G p1).edges.map fun e => e.data.length_original) ∧
    ((ponderar_grafo (ponderar_grafo G p1) p2).edges.map
        fun e => e.data.length_original) =
      (G.edges.map fun e => some (e.data.length.getD 1)) ∧
    ((ponderar_grafo (ponderar_grafo G p1) p2).edges.map fun e => e.data.length) =
      ((ponderar_grafo G p1).edges.map fun e =>
        some (pesoAresta e.data e.u e.v p2 (identificar_faixas_pedestres G))) := by
  have hfst : ∀ e ∈ G.edges,
      (ponderarEdge p1 (identificar_faixas_pedestres G) e).data.length_original =
        some (e.data.length.getD 1) :=
    fun e he => ponderarEdge_fresh p1 _ e (h e he)
  have hfx : identificar_faixas_pedestres (ponderar_grafo G p1) =
      identificar_faixas_pedestres G := identificar_faixas_ponderar G p1
  refine ⟨?_, ?_, ?_⟩
  · unfold ponderar_grafo
    simp only [List.map_map]
    refine List.map_congr_left fun e he => ?_
    simp only [Function.comp_apply]
    rw [hfst e he]
    exact ponderarEdge_keeps p2 _ _ _ (hfst e he)
  · unfold ponderar_grafo
    simp only [List.map_map]
    refine List.map_congr_left fun e he => ?_
    simp only [Function.comp_apply]
    exact ponderarEdge_keeps p2 _ _ _ (hfst e he)
  · unfold ponderar_grafo
    simp only [List.map_map]
    refine List.map_congr_left fun e _ => ?_
    simp only [Function.comp_apply]
    exact ponderarEdge_length p2 _ _

/-- Witness for C4 on a fresh one-edge graph. -/
theorem c4_double_application_witness :
    (∀ e ∈ c4WitGraph.edges, e.data.length_original = none) ∧
    (((ponderar_grafo (ponderar_grafo c4WitGraph trivialProfile) trivialProfile).edges.map
        fun e => e.data.length_original) =
      ((ponderar_grafo c4WitGraph trivialProfile).edges.map
        fun e => e.data.length_original) ∧
    ((ponderar_grafo (ponderar_grafo c4WitGraph trivialProfile) trivialProfile).edges.map
        fun e => e.data.length_original) =
      (c4WitGraph.edges.map fun e => some (e.data.length.getD 1)) ∧
    ((ponderar_grafo (ponderar_grafo c4WitGraph trivialProfile) trivialProfile).edges.map
        fun e => e.data.length) =
      ((ponderar_grafo c4WitGraph trivialProfile).edges.map fun e =>
        some (pesoAresta e.data e.u e.v trivialProfile
          (identificar_faixas_pedestres c4WitGraph)))) :=
  ⟨by decide, c4_double_application c4WitGraph trivialProfile trivialProfile (by decide)⟩

/-- C10: weighting touches nothing but the per-edge `length` and
`length_original` attributes: the node list (hence every node attribute),
the edge list with its `(u, v, key)` identities, and every other edge
attribute are identical before and after; the per-edge cost computation
itself is a pure function of the edge data (it is translated here as a
`ℚ`-valued function, mutating nothing). -/
theorem c10_ponderar_frame (G : WGraph) (perfil : MobilityProfile) :
    (ponderar_grafo G perfil).nodes = G.nodes ∧
    ((ponderar_grafo G perfil).edges.map fun e => (e.u, e.v, e.key)) =
      (G.edges.map fun e => (e.u, e.v, e.key)) ∧
    ((ponderar_grafo G perfil).edges.map fun e => stripWeights e.data) =
      (G.edges.map fun e => stripWeights e.data) := by
  refine ⟨rfl, ?_, ?_⟩ <;>
    · unfold ponderar_grafo
      simp only [List.map_map]
      refine List.map_congr_left fun e _ => ?_
      simp only [Function.comp_apply]
      cases h : e.data.length_original <;> simp [ponderarEdge, stripWeights, h]

/-! ## C6: calcular_rota error handling -/

/-- C6 counterexample: when the origin cannot be resolved to a graph node,
`calcular_rota` does not fail with a `NodeResolutionError` (it raises
nothing at all): the generic handler displays a descriptive message and the
call returns `(None, None)`. -/
theorem c6_counterexample :
    c6CeEnv.nearestOrigem = .exc "Cannot resolve origin to a graph node" ∧
    (calcular_rota c6CeEnv).raised = none ∧
    (calcular_rota c6CeEnv).pontos = none ∧
    (calcular_rota c6CeEnv).distancia = none ∧
    (calcular_rota c6CeEnv).errorShown =
      some "⚠️ Erro ao calcular rota: Cannot resolve origin to a graph node" :=
  ⟨rfl, rfl, rfl, rfl, rfl⟩

/-- C6 amended: `calcular_rota` never lets an exception propagate; when no
path exists it returns the empty result silently; and a resolution failure
(like any other fault) is reported with a descriptive error message
alongside the empty result — no distinct `NodeResolutionError` is raised. -/
theorem c6_amended_error_handling :
    (∀ env : RotaEnv, (calcular_rota env).raised = none) ∧
    (∀ (env : RotaEnv) (o d : ℕ), env.nearestOrigem = .ok o →
      env.nearestDestino = .ok d → env.shortest o d = .noPath →
      calcular_rota env = ⟨none, none, none, none⟩) ∧
    (∀ (env : RotaEnv) (m : String), env.nearestOrigem = .exc m →
      calcular_rota env =
        ⟨none, none, some ("⚠️ Erro ao calcular rota: " ++ m), none⟩) := by
  refine ⟨?_, ?_, ?_⟩
  · intro env
    obtain ⟨no, nd, sp, ex⟩ := env
    cases no with
    | exc m => rfl
    | ok o =>
      cases nd with
      | exc m => rfl
      | ok d =>
        cases hsp : sp o d with
        | noPath => simp [calcular_rota, hsp]
        | exc m => simp [calcular_rota, hsp]
        | found r q =>
          cases hex : ex r with
          | exc m => simp [calcular_rota, hsp, hex]
          | ok p => simp [calcular_rota, hsp, hex]
  · intro env o d h1 h2 h3
    obtain ⟨no, nd, sp, ex⟩ := env
    dsimp only at h1 h2 h3
    subst h1
    subst h2
    simp [calcular_rota, h3]
  · intro env m h1
    obtain ⟨no, nd, sp, ex⟩ := env
    dsimp only at h1
    subst h1
    simp [calcular_rota]

/-- Witness for C6 amended: a connected-resolution, no-path environment. -/
theorem c6_amended_witness :
    c6WitEnv.nearestOrigem = .ok 1 ∧ c6WitEnv.nearestDestino = .ok 2 ∧
    c6WitEnv.shortest 1 2 = .noPath ∧
    calcular_rota c6WitEnv = ⟨none, none, none, none⟩ :=
  ⟨rfl, rfl, rfl, c6_amended_error_handling.2.1 c6WitEnv 1 2 rfl rfl rfl⟩

/-! ## C7: failed invocations zero the measurement and invalidate the pair -/

/-- The measurement loop reports "no path" exactly when some repetition
returned no path. -/
theorem coletarTempos_semCaminho (reps : List RepInvocation)
    (hex : ∃ r ∈ reps, r.resultado = none) :
    coletarTempos reps = .semCaminho := by
  induction reps with
  | nil => simp at hex
  | cons r rest ih =>
    rcases hex with ⟨r', hr', hres⟩
    rcases List.mem_cons.mp hr' with rfl | hmem
    · unfold coletarTempos
      rw [hres]
    · unfold coletarTempos
      cases hr : r.resultado with
      | none => rfl
      | some pr =>
        cases pr
        rw [ih ⟨r', hmem, hres⟩]

/-- C7: if any timed repetition finds no path, the whole measurement is the
all-zero unsuccessful record with reason "Sem caminho" (empty timing list,
every statistic zero); and in the benchmark loop a pair with an unsuccessful
measurement is counted invalid and leaves the accepted results untouched. -/
theorem c7_no_path_zeroes_and_excludes :
    (∀ (algoritmo : String) (reps : List RepInvocation) (nos : ℕ),
      (∃ r ∈ reps, r.resultado = none) →
      medir_algoritmo_completo algoritmo reps nos =
        medicaoFalha algoritmo "Sem caminho") ∧
    (∀ (resultados : List ResultadoComparacao) (pt pi : ℕ)
      (origem destino : String) (dist_e : ℚ) (d a : MedicaoAlgoritmo),
      ¬(d.sucesso ∧ a.sucesso) →
      registrarPar resultados pt pi origem destino dist_e d a =
        (resultados, pt, pi + 1)) := by
  constructor
  · intro algoritmo reps nos hex
    unfold medir_algoritmo_completo
    rw [coletarTempos_semCaminho reps hex]
  · intro resultados pt pi origem destino dist_e d a hfail
    unfold registrarPar
    rw [if_pos hfail]

/-- Witness for C7: a single no-path repetition, and a rejected pair whose
Dijkstra measurement is the failure record. -/
theorem c7_no_path_witness :
    (∃ r ∈ [(⟨none, 5⟩ : RepInvocation)], r.resultado = none) ∧
    medir_algoritmo_completo "dijkstra" [⟨none, 5⟩] 3 =
      medicaoFalha "dijkstra" "Sem caminho" ∧
    ¬((medicaoFalha "dijkstra" "Sem caminho").sucesso ∧
        (medicaoFalha "astar" "Sem caminho").sucesso) ∧
    registrarPar [] 0 0 "Biblioteca" "Reitoria" 250
        (medicaoFalha "dijkstra" "Sem caminho")
        (medicaoFalha "astar" "Sem caminho") = ([], 0, 1) := by
  have hex : ∃ r ∈ [(⟨none, 5⟩ : RepInvocation)], r.resultado = none :=
    ⟨⟨none, 5⟩, List.mem_singleton.mpr rfl, rfl⟩
  have hns : ¬((medicaoFalha "dijkstra" "Sem caminho").sucesso ∧
      (medicaoFalha "astar" "Sem caminho").sucesso) := by
    simp [medicaoFalha]
  exact ⟨hex, c7_no_path_zeroes_and_excludes.1 "dijkstra" [⟨none, 5⟩] 3 hex, hns,
    c7_no_path_zeroes_and_excludes.2 [] 0 0 "Biblioteca" "Reitoria" 250 _ _ hns⟩

/-! ## C8: percentile computation -/

/-- On a 20-element sample, the exclusive-method 95th percentile is the
interpolation `(s[18] + 19*s[19]) / 20` of the two largest order
statistics. -/
theorem percentil95_length20 (l : List ℚ) (h : l.length = 20) :
    percentil95 l =
      ((pySorted l).getD 18 0 + 19 * (pySorted l).getD 19 0) / 20 := by
  have hlen : (pySorted l).length = 20 := by
    simpa [pySorted, List.length_mergeSort] using h
  unfold percentil95
  rw [if_pos (by omega)]
  simp only [pyQuantiles, hlen]
  rw [List.getD_eq_getElem?_getD, List.getElem?_map,
    List.getElem?_range (by norm_num), Option.map_some', Option.getD_some]
  norm_num
  ring

/-- C8 counterexample: on the sample `[1, …, 20]` the computed 95th
percentile is `19.95`, while nearest-rank binning gives the 19th order
statistic, `19`. -/
theorem c8_counterexample :
    c8CeList.length = 20 ∧
    percentil95 c8CeList = 399 / 20 ∧
    nearestRank95 c8CeList = 19 ∧
    percentil95 c8CeList ≠ nearestRank95 c8CeList := by
  have hsort : pySorted c8CeList = c8CeList :=
    List.mergeSort_eq_self (by decide)
  have h95 : percentil95 c8CeList = 399 / 20 := by
    rw [percentil95_length20 c8CeList (by decide), hsort]
    norm_num [c8CeList]
  have hnr : nearestRank95 c8CeList = 19 := by
    unfold nearestRank95
    rw [hsort]
    norm_num [c8CeList]
  exact ⟨by decide, h95, hnr, by rw [h95, hnr]; norm_num⟩

/-- C8 amended: the 95th/99th percentiles come from `statistics.quantiles`'
exclusive interpolation with 20 and 100 cut points when the sample is large
enough, and are the maximum otherwise; on a 20-element sample the 95th
percentile interpolates the two largest order statistics, so 20 identical
timings yield that common value, and below 20 samples it is the maximum. -/
theorem c8_amended_percentis :
    (∀ l : List ℚ, l.length = 20 →
      percentil95 l =
        ((pySorted l).getD 18 0 + 19 * (pySorted l).getD 19 0) / 20) ∧
    (∀ c : ℚ, percentil95 (List.replicate 20 c) = c) ∧
    (∀ l : List ℚ, 0 < l.length → l.length < 20 → percentil95 l = pyMax l) ∧
    (∀ l : List ℚ, 0 < l.length → l.length < 100 → percentil99 l = pyMax l) := by
  refine ⟨percentil95_length20, ?_, ?_, ?_⟩
  · intro c
    have hsort : pySorted (List.replicate 20 c) = List.replicate 20 c :=
      List.mergeSort_eq_self (List.pairwise_replicate.mpr (.inr le_rfl))
    rw [percentil95_length20 _ (List.length_replicate 20 c), hsort]
    have h18 : (List.replicate 20 c).getD 18 0 = c := by
      rw [List.getD_eq_getElem?_getD]
      simp
    have h19 : (List.replicate 20 c).getD 19 0 = c := by
      rw [List.getD_eq_getElem?_getD]
      simp
    rw [h18, h19]
    ring
  · intro l _ hlt
    unfold percentil95
    rw [if_neg (by omega)]
  · intro l _ hlt
    unfold percentil99
    rw [if_neg (by omega)]

/-- Witness for C8 amended on 20 identical timings and a 3-element sample. -/
theorem c8_amended_witness :
    percentil95 (List.replicate 20 (7/2 : ℚ)) = 7/2 ∧
    (0 < [(3 : ℚ), 1, 2].length ∧ [(3 : ℚ), 1, 2].length < 20 ∧
      percentil95 [(3 : ℚ), 1, 2] = pyMax [(3 : ℚ), 1, 2]) :=
  ⟨c8_amended_percentis.2.1 (7/2),
    ⟨by decide, by decide, c8_amended_percentis.2.2.1 [3, 1, 2] (by decide) (by decide)⟩⟩

/-! ## C5, stage 1: heap, lookup and relaxation lemmas -/

theorem heapMin_eq_none {l : List (ℚ × ℕ)} (h : heapMin l = none) : l = [] := by
  cases l with
  | nil => rfl
  | cons a t =>
    unfold heapMin at h
    cases hm : heapMin t <;> rw [hm] at h <;> simp at h

theorem heapMin_mem {l : List (ℚ × ℕ)} {m : ℚ × ℕ} (h : heapMin l = some m) :
    m ∈ l := by
  induction l with
  | nil => simp [heapMin] at h
  | cons a t ih =>
    unfold heapMin at h
    cases hm : heapMin t with
    | none =>
      rw [hm] at h
      simp at h
      simp [h]
    | some b =>
      rw [hm] at h
      simp only [Option.some.injEq] at h
      rcases ite_eq_iff.mp h with ⟨_, rfl⟩ | ⟨_, rfl⟩
      · exact List.mem_cons_self a t
      · exact List.mem_cons_of_mem _ (ih hm)

theorem heapMin_min : ∀ {l : List (ℚ × ℕ)} {m : ℚ × ℕ},
    heapMin l = some m → ∀ x ∈ l, m.1 ≤ x.1 := by
  intro l
  induction l with
  | nil => intro m h; simp [heapMin] at h
  | cons a t ih =>
    intro m h
    unfold heapMin at h
    cases hm : heapMin t with
    | none =>
      rw [hm] at h
      simp at h
      subst h
      intro x hx
      rcases List.mem_cons.mp hx with rfl | hx'
      · exact le_refl _
      · rw [heapMin_eq_none hm] at hx'
        simp at hx'
    | some b =>
      rw [hm] at h
      simp only [Option.some.injEq] at h
      by_cases hc : a.1 < b.1 ∨ (a.1 = b.1 ∧ a.2 ≤ b.2)
      · rw [if_pos hc] at h
        subst h
        intro x hx
        rcases List.mem_cons.mp hx with rfl | hx'
        · exact le_refl _
        · refine le_trans ?_ (ih hm x hx')
          rcases hc with hlt | ⟨heq, _⟩
          · exact hlt.le
          · exact heq.le
      · rw [if_neg hc] at h
        subst h
        push_neg at hc
        intro x hx
        rcases List.mem_cons.mp hx with rfl | hx'
        · exact hc.1
        · exact ih hm x hx'

theorem distLookup_cons (k : ℕ) (q : ℚ) (t : List (ℕ × ℚ)) (v : ℕ) :
    distLookup ((k, q) :: t) v = if v = k then some q else distLookup t v := rfl

/-- The three possible outcomes of one relaxation step: neighbour already
settled (no-op), improvement (store and push), no improvement (no-op). -/
theorem relaxStep_cases (G : WGraph) (h : ℕ → ℚ) (mode : Bool) (u : ℕ)
    (base : ℚ) (st : SearchState) (v : ℕ) :
    (v ∈ st.visitados ∧ relaxStep G h mode u base st v = st) ∨
    (v ∉ st.visitados ∧
      (distLookup st.dist v = none ∨
        ∃ dv, distLookup st.dist v = some dv ∧ base + pesoMinimo G u v < dv) ∧
      relaxStep G h mode u base st v =
        { st with dist := (v, base + pesoMinimo G u v) :: st.dist,
                  heap := ((if mode then base + pesoMinimo G u v + h v
                            else base + pesoMinimo G u v), v) :: st.heap }) ∨
    (v ∉ st.visitados ∧
      (∃ dv, distLookup st.dist v = some dv ∧ dv ≤ base + pesoMinimo G u v) ∧
      relaxStep G h mode u base st v = st) := by
  by_cases h1 : v ∈ st.visitados
  · exact Or.inl ⟨h1, by simp [relaxStep, h1]⟩
  · cases hdv : distLookup st.dist v with
    | none =>
      refine Or.inr (Or.inl ⟨h1, Or.inl rfl, ?_⟩)
      simp [relaxStep, h1, hdv]
    | some dv =>
      by_cases hlt : base + pesoMinimo G u v < dv
      · refine Or.inr (Or.inl ⟨h1, Or.inr ⟨dv, rfl, hlt⟩, ?_⟩)
        simp [relaxStep, h1, hdv, hlt]
      · refine Or.inr (Or.inr ⟨h1, ⟨dv, rfl, le_of_not_lt hlt⟩, ?_⟩)
        simp [relaxStep, h1, hdv, hlt]

/-- Folding the relaxation step never touches the settled sets. -/
theorem relaxFold_vis (G : WGraph) (h : ℕ → ℚ) (mode : Bool) (u : ℕ)
    (base : ℚ) : ∀ (l : List ℕ) (s : SearchState),
    (List.foldl (relaxStep G h mode u base) s l).visitados = s.visitados ∧
    (List.foldl (relaxStep G h mode u base) s l).explorados = s.explorados := by
  intro l
  induction l with
  | nil => intro s; exact ⟨rfl, rfl⟩
  | cons v t ih =>
    intro s
    rcases relaxStep_cases G h mode u base s v with ⟨_, he⟩ | ⟨_, _, he⟩ | ⟨_, _, he⟩ <;>
      simp only [List.foldl_cons, he] <;>
      first
      | exact ih s
      | exact ih _

/-- Folding the relaxation step only shrinks known distances. -/
theorem relaxFold_mono (G : WGraph) (h : ℕ → ℚ) (mode : Bool) (u : ℕ)
    (base : ℚ) : ∀ (l : List ℕ) (s : SearchState) (w : ℕ) (dw : ℚ),
    distLookup s.dist w = some dw →
    ∃ dw', distLookup (List.foldl (relaxStep G h mode u base) s l).dist w = some dw' ∧
      dw' ≤ dw := by
  intro l
  induction l with
  | nil => intro s w dw hw; exact ⟨dw, hw, le_refl _⟩
  | cons v t ih =>
    intro s w dw hw
    rcases relaxStep_cases G h mode u base s v with ⟨_, he⟩ | ⟨_, _, he⟩ | ⟨_, _, he⟩
    · simpa only [List.foldl_cons, he] using ih s w dw hw
    · simp only [List.foldl_cons, he]
      by_cases hwv : w = v
      · subst hwv
        rcases ih ({ s with
              dist := (w, base + pesoMinimo G u w) :: s.dist,
              heap := ((if mode then base + pesoMinimo G u w + h w
                        else base + pesoMinimo G u w), w) :: s.heap })
            w (base + pesoMinimo G u w)
            (by
              show distLookup ((w, base + pesoMinimo G u w) :: s.dist) w =
                some (base + pesoMinimo G u w)
              rw [distLookup_cons, if_pos rfl]) with ⟨dw', hw', hle⟩
        rcases h2 : distLookup s.dist w with _ | dv
        · rw [h2] at hw
          exact absurd hw (by simp)
        · rw [h2] at hw
          rcases (by assumption : distLookup s.dist w = none ∨
            ∃ dv0, distLookup s.dist w = some dv0 ∧ base + pesoMinimo G u w < dv0) with hnone | ⟨dv0, hdv0, hlt0⟩
          · rw [hnone] at h2; exact absurd h2 (by simp)
          · rw [hdv0] at h2
            injection h2 with h2e
            injection hw with hwe
            exact ⟨dw', hw', hle.trans (by rw [h2e, hwe] at hlt0; exact hlt0.le)⟩
      · exact ih _ w dw (by simpa [distLookup_cons, hwv] using hw)
    · simpa only [List.foldl_cons, he] using ih s w dw hw

/-- New distance entries come from relaxed neighbours, with the definite
value `base + pesoMinimo`. -/
theorem relaxFold_dist_new (G : WGraph) (h : ℕ → ℚ) (mode : Bool) (u : ℕ)
    (base : ℚ) : ∀ (l : List ℕ) (s : SearchState) (w : ℕ) (dw' : ℚ),
    distLookup (List.foldl (relaxStep G h mode u base) s l).dist w = some dw' →
    distLookup s.dist w = some dw' ∨
      (w ∈ l ∧ w ∉ s.visitados ∧ dw' = base + pesoMinimo G u w) := by
  intro l
  induction l with
  | nil => intro s w dw' hw; exact Or.inl hw
  | cons v t ih =>
    intro s w dw' hw
    rw [List.foldl_cons] at hw
    rcases relaxStep_cases G h mode u base s v with ⟨_, he⟩ | ⟨hnv, _, he⟩ | ⟨_, _, he⟩
    · rw [he] at hw
      rcases ih s w dw' hw with hl | ⟨hm, hv, hf⟩
      · exact Or.inl hl
      · exact Or.inr ⟨List.mem_cons_of_mem _ hm, hv, hf⟩
    · rw [he] at hw
      rcases ih _ w dw' hw with hl | ⟨hm, hv, hf⟩
      · rw [show ({ s with
              dist := (v, base + pesoMinimo G u v) :: s.dist,
              heap := ((if mode then base + pesoMinimo G u v + h v
                        else base + pesoMinimo G u v), v) :: s.heap } : SearchState).dist =
            (v, base + pesoMinimo G u v) :: s.dist from rfl, distLookup_cons] at hl
        by_cases hwv : w = v
        · subst hwv
          rw [if_pos rfl] at hl
          injection hl with hl
          exact Or.inr ⟨List.mem_cons_self _ _, hnv, hl.symm⟩
        · rw [if_neg hwv] at hl
          exact Or.inl hl
      · exact Or.inr ⟨List.mem_cons_of_mem _ hm, hv, hf⟩
    · rw [he] at hw
      rcases ih s w dw' hw with hl | ⟨hm, hv, hf⟩
      · exact Or.inl hl
      · exact Or.inr ⟨List.mem_cons_of_mem _ hm, hv, hf⟩

/-- The heap only gains entries during relaxation. -/
theorem relaxFold_heap_sup (G : WGraph) (h : ℕ → ℚ) (mode : Bool) (u : ℕ)
    (base : ℚ) : ∀ (l : List ℕ) (s : SearchState) (kv : ℚ × ℕ),
    kv ∈ s.heap → kv ∈ (List.foldl (relaxStep G h mode u base) s l).heap := by
  intro l
  induction l with
  | nil => intro s kv hkv; exact hkv
  | cons v t ih =>
    intro s kv hkv
    rw [List.foldl_cons]
    rcases relaxStep_cases G h mode u base s v with ⟨_, he⟩ | ⟨_, _, he⟩ | ⟨_, _, he⟩ <;>
      rw [he] <;>
      exact ih _ kv (by first | exact hkv | exact List.mem_cons_of_mem _ hkv)

/-- Every heap entry after relaxation is an old entry or a pushed keyed
entry for a relaxed unsettled neighbour. -/
theorem relaxFold_heap_new (G : WGraph) (h : ℕ → ℚ) (mode : Bool) (u : ℕ)
    (base : ℚ) : ∀ (l : List ℕ) (s : SearchState) (kv : ℚ × ℕ),
    kv ∈ (List.foldl (relaxStep G h mode u base) s l).heap →
    kv ∈ s.heap ∨ ∃ w ∈ l, w ∉ s.visitados ∧
      kv = ((if mode then base + pesoMinimo G u w + h w
             else base + pesoMinimo G u w), w) := by
  intro l
  induction l with
  | nil => intro s kv hkv; exact Or.inl hkv
  | cons v t ih =>
    intro s kv hkv
    rw [List.foldl_cons] at hkv
    rcases relaxStep_cases G h mode u base s v with ⟨_, he⟩ | ⟨hnv, _, he⟩ | ⟨_, _, he⟩
    · rw [he] at hkv
      rcases ih s kv hkv with hl | ⟨w, hm, hv, hf⟩
      · exact Or.inl hl
      · exact Or.inr ⟨w, List.mem_cons_of_mem _ hm, hv, hf⟩
    · rw [he] at hkv
      rcases ih _ kv hkv with hl | ⟨w, hm, hv, hf⟩
      · rcases List.mem_cons.mp hl with rfl | hold
        · exact Or.inr ⟨v, List.mem_cons_self _ _, hnv, rfl⟩
        · exact Or.inl hold
      · exact Or.inr ⟨w, List.mem_cons_of_mem _ hm, hv, hf⟩
    · rw [he] at hkv
      rcases ih s kv hkv with hl | ⟨w, hm, hv, hf⟩
      · exact Or.inl hl
      · exact Or.inr ⟨w, List.mem_cons_of_mem _ hm, hv, hf⟩

/-- In Dijkstra mode, relaxation preserves "every unsettled known node has
its current distance in the heap". -/
theorem relaxFold_unsettled (G : WGraph) (h : ℕ → ℚ) (u : ℕ) (base : ℚ) :
    ∀ (l : List ℕ) (s : SearchState),
    (∀ w dw, w ∉ s.visitados → distLookup s.dist w = some dw → (dw, w) ∈ s.heap) →
    ∀ w dw, w ∉ s.visitados →
      distLookup (List.foldl (relaxStep G h false u base) s l).dist w = some dw →
      (dw, w) ∈ (List.foldl (relaxStep G h false u base) s l).heap := by
  intro l
  induction l with
  | nil => intro s hs w dw hw hlk; exact hs w dw hw hlk
  | cons v t ih =>
    intro s hs w dw hw hlk
    rw [List.foldl_cons] at hlk ⊢
    rcases relaxStep_cases G h false u base s v with ⟨_, he⟩ | ⟨hnv, _, he⟩ | ⟨_, _, he⟩
    · rw [he] at hlk ⊢
      exact ih s hs w dw hw hlk
    · rw [he] at hlk ⊢
      refine ih _ ?_ w dw hw hlk
      intro w' dw' hw' hlk'
      rw [show ({ s with
            dist := (v, base + pesoMinimo G u v) :: s.dist,
            heap := ((if false then base + pesoMinimo G u v + h v
                      else base + pesoMinimo G u v), v) :: s.heap } : SearchState).dist =
          (v, base + pesoMinimo G u v) :: s.dist from rfl, distLookup_cons] at hlk'
      by_cases hwv : w' = v
      · rw [if_pos hwv] at hlk'
        injection hlk' with hlk'
        subst hwv
        rw [← hlk']
        exact List.mem_cons_self _ _
      · rw [if_neg hwv] at hlk'
        exact List.mem_cons_of_mem _ (hs w' dw' hw' hlk')
    · rw [he] at hlk ⊢
      exact ih s hs w dw hw hlk

/-- Every relaxed unsettled neighbour ends with a known distance bounded by
`base + pesoMinimo`. -/
theorem relaxFold_bound (G : WGraph) (h : ℕ → ℚ) (mode : Bool) (u : ℕ)
    (base : ℚ) : ∀ (l : List ℕ) (s : SearchState) (v : ℕ),
    v ∈ l → v ∉ s.visitados →
    ∃ dv', distLookup (List.foldl (relaxStep G h mode u base) s l).dist v = some dv' ∧
      dv' ≤ base + pesoMinimo G u v := by
  intro l
  induction l with
  | nil => intro s v hv; simp at hv
  | cons w0 t ih =>
    intro s v hv hnv
    rw [List.foldl_cons]
    rcases List.mem_cons.mp hv with rfl | hvt
    · rcases relaxStep_cases G h mode u base s v with ⟨hin, _⟩ | ⟨_, _, he⟩ | ⟨_, ⟨dv, hdv, hle⟩, he⟩
      · exact absurd hin hnv
      · rw [he]
        exact relaxFold_mono G h mode u base t _ v (base + pesoMinimo G u v)
          (by rw [show ({ s with
                dist := (v, base + pesoMinimo G u v) :: s.dist,
                heap := ((if mode then base + pesoMinimo G u v + h v
                          else base + pesoMinimo G u v), v) :: s.heap } : SearchState).dist =
              (v, base + pesoMinimo G u v) :: s.dist from rfl, distLookup_cons, if_pos rfl])
      · rw [he]
        rcases relaxFold_mono G h mode u base t s v dv hdv with ⟨dv', hdv', hle'⟩
        exact ⟨dv', hdv', hle'.trans hle⟩
    · rcases relaxStep_cases G h mode u base s w0 with ⟨_, he⟩ | ⟨_, _, he⟩ | ⟨_, _, he⟩ <;>
        rw [he] <;>
        exact ih _ v hvt hnv

/-! ## C5, stage 2: walks, costs and positivity -/

theorem firstDedupAux_subset {x : ℕ} :
    ∀ {seen l : List ℕ}, x ∈ firstDedupAux seen l → x ∈ l := by
  intro seen l
  induction l generalizing seen with
  | nil => intro hx; simp [firstDedupAux] at hx
  | cons a t ih =>
    intro hx
    unfold firstDedupAux at hx
    split_ifs at hx with ha
    · exact List.mem_cons_of_mem _ (ih hx)
    · rcases List.mem_cons.mp hx with rfl | hx'
      · exact List.mem_cons_self _ _
      · exact List.mem_cons_of_mem _ (ih hx')

/-- A successor relation comes from an actual edge. -/
theorem adjacente_edge {G : WGraph} {u v : ℕ} (h : Adjacente G u v) :
    ∃ e ∈ G.edges, e.u = u ∧ e.v = v := by
  have hv := firstDedupAux_subset h
  rcases List.mem_map.mp hv with ⟨e, he, rfl⟩
  rcases List.mem_filter.mp he with ⟨heG, heu⟩
  exact ⟨e, heG, by simpa using heu, rfl⟩

/-- Under positive weights, every step weight is positive (the default 1.0
included). -/
theorem pesoMinimo_pos {G : WGraph} {u v : ℕ} (hW : PesosPositivos G) :
    0 < pesoMinimo G u v := by
  unfold pesoMinimo
  cases hm : (edgeLengths G u v).min? with
  | none => norm_num
  | some m =>
    have hmm : m ∈ edgeLengths G u v := List.min?_mem (fun a b => min_choice a b) hm
    rcases List.mem_map.mp hmm with ⟨e, hef, rfl⟩
    simpa using hW e (List.mem_filter.mp hef).1

theorem walkCost_cons_cons (G : WGraph) (a b : ℕ) (t : List ℕ) :
    walkCost G (a :: b :: t) = pesoMinimo G a b + walkCost G (b :: t) := rfl

theorem walkCost_concat (G : WGraph) :
    ∀ (w : List ℕ) (u x : ℕ), w.getLast? = some u →
    walkCost G (w ++ [x]) = walkCost G w + pesoMinimo G u x := by
  intro w
  induction w with
  | nil => intro u x h; simp at h
  | cons a t ih =>
    intro u x h
    cases t with
    | nil =>
      simp at h
      subst h
      show pesoMinimo G a x + walkCost G [x] = walkCost G [a] + pesoMinimo G a x
      show pesoMinimo G a x + 0 = 0 + pesoMinimo G a x
      ring
    | cons b t' =>
      rw [List.getLast?_cons_cons] at h
      have hih := ih u x h
      show pesoMinimo G a b + walkCost G ((b :: t') ++ [x]) =
        (pesoMinimo G a b + walkCost G (b :: t')) + pesoMinimo G u x
      rw [hih]
      ring

theorem isWalk_concat {G : WGraph} {w : List ℕ} {u x : ℕ} (hw : IsWalk G w)
    (hl : w.getLast? = some u) (ha : Adjacente G u x) : IsWalk G (w ++ [x]) := by
  unfold IsWalk at hw ⊢
  rw [List.chain'_append]
  refine ⟨hw, List.chain'_singleton _, ?_⟩
  intro y hy z hz
  rw [hl] at hy
  simp at hy hz
  subst hy
  subst hz
  exact ha

theorem take_get_last (p : List ℕ) (i : ℕ) (hi : i < p.length) :
    p.take (i + 1) = p.take i ++ [p.get ⟨i, hi⟩] := by
  rw [List.take_succ, List.getElem?_eq_getElem hi]
  rfl

theorem getLast_take (p : List ℕ) (i : ℕ) (hi : i < p.length) :
    (p.take (i + 1)).getLast? = some (p.get ⟨i, hi⟩) := by
  rw [take_get_last p i hi, List.getLast?_concat]

theorem head_take (p : List ℕ) (i : ℕ) : (p.take (i + 1)).head? = p.head? := by
  cases p <;> rfl

theorem prefixCost_succ (G : WGraph) (p : List ℕ) (i : ℕ) (hi : i + 1 < p.length) :
    prefixCost G p (i + 1) =
      prefixCost G p i +
        pesoMinimo G (p.get ⟨i, Nat.lt_of_succ_lt hi⟩) (p.get ⟨i + 1, hi⟩) := by
  unfold prefixCost
  rw [take_get_last p (i + 1) hi]
  exact walkCost_concat G _ _ _ (getLast_take p i (Nat.lt_of_succ_lt hi))

theorem prefixCost_lt {G : WGraph} (hW : PesosPositivos G) (p : List ℕ) :
    ∀ (j i : ℕ), i < j → j < p.length → prefixCost G p i < prefixCost G p j := by
  intro j
  induction j with
  | zero => intro i hij _; omega
  | succ j ih =>
    intro i hij hj
    have hstep : prefixCost G p j < prefixCost G p (j + 1) := by
      rw [prefixCost_succ G p j hj]
      have := pesoMinimo_pos (u := p.get ⟨j, Nat.lt_of_succ_lt hj⟩)
        (v := p.get ⟨j + 1, hj⟩) hW
      linarith
    rcases Nat.lt_succ_iff_lt_or_eq.mp hij with hlt | rfl
    · exact (ih i hlt (Nat.lt_of_succ_lt hj)).trans hstep
    · exact hstep

theorem prefixCost_le {G : WGraph} (hW : PesosPositivos G) (p : List ℕ)
    (i j : ℕ) (hij : i ≤ j) (hj : j < p.length) :
    prefixCost G p i ≤ prefixCost G p j := by
  rcases Nat.lt_or_ge i j with hlt | hge
  · exact (prefixCost_lt hW p j i hlt hj).le
  · have : i = j := le_antisymm hij hge
    rw [this]

theorem prefixCost_last (G : WGraph) (p : List ℕ) (hp : p ≠ []) :
    prefixCost G p (p.length - 1) = walkCost G p := by
  unfold prefixCost
  have hlen : p.length - 1 + 1 = p.length :=
    Nat.succ_pred_eq_of_pos (List.length_pos.mpr hp)
  rw [hlen, List.take_length]

theorem prefixCost_zero (G : WGraph) (p : List ℕ) (hp : p ≠ []) :
    prefixCost G p 0 = 0 := by
  cases p with
  | nil => exact absurd rfl hp
  | cons a t => rfl

theorem get_zero_of_head {p : List ℕ} {o : ℕ} (hhead : p.head? = some o)
    (h0 : 0 < p.length) : p.get ⟨0, h0⟩ = o := by
  cases p with
  | nil => simp at hhead
  | cons a t => simpa using hhead

theorem get_last_of_getLast {p : List ℕ} {d : ℕ} (hlast : p.getLast? = some d)
    (hp : p ≠ []) : p.get ⟨p.length - 1, by
      have := List.length_pos.mpr hp
      omega⟩ = d := by
  have h1 : p.getLast hp = d := by
    rw [List.getLast?_eq_getLast p hp] at hlast
    exact Option.some.inj hlast
  rw [← h1, List.getLast_eq_getElem]
  rfl

/-- From any unsettled node of the reference walk one can walk back to a
first unsettled node, which the distance map has already reached within its
prefix cost. -/
theorem dijInv_first {G : WGraph} {o d : ℕ} {p : List ℕ} {s : SearchState}
    (inv : DijInv G o d p s) (hhead : p.head? = some o) :
    ∀ j (hj : j < p.length), p.get ⟨j, hj⟩ ∉ s.visitados →
    ∃ i, ∃ hi : i < p.length, i ≤ j ∧ p.get ⟨i, hi⟩ ∉ s.visitados ∧
      ∃ dv, distLookup s.dist (p.get ⟨i, hi⟩) = some dv ∧
        dv ≤ prefixCost G p i := by
  intro j
  induction j with
  | zero =>
    intro hj hns
    refine ⟨0, hj, le_refl _, hns, 0, ?_, ?_⟩
    · rw [get_zero_of_head hhead hj]
      exact inv.distOrigem
    · rw [prefixCost_zero G p (by intro hnil; rw [hnil] at hj; simp at hj)]
  | succ j ih =>
    intro hj hns
    by_cases hjv : p.get ⟨j, Nat.lt_of_succ_lt hj⟩ ∈ s.visitados
    · rcases inv.nextBound j hj hjv with hin | ⟨dv, hdv, hle⟩
      · exact absurd hin hns
      · exact ⟨j + 1, hj, le_refl _, hns, dv, hdv, hle⟩
    · rcases ih (Nat.lt_of_succ_lt hj) hjv with ⟨i, hi, hij, hrest⟩
      exact ⟨i, hi, hij.trans (Nat.le_succ j), hrest⟩

/-- The priority a node is settled at is its recorded distance. -/
theorem dijInv_popKey {G : WGraph} {o d : ℕ} {p : List ℕ} {s : SearchState}
    (inv : DijInv G o d p s) {du : ℚ × ℕ} (hmin : heapMin s.heap = some du)
    (hu : du.2 ∉ s.visitados) : distLookup s.dist du.2 = some du.1 := by
  rcases inv.heapDist du (heapMin_mem hmin) with ⟨dv, hdv, hle⟩
  have hmem : (dv, du.2) ∈ s.heap := inv.unsettledHeap _ _ hu hdv
  have h2 := heapMin_min hmin _ hmem
  rw [le_antisymm hle h2] at hdv
  exact hdv

/-- The key of a settled reference-walk node is bounded by its prefix
cost. -/
theorem dijInv_settleKey {G : WGraph} {o d : ℕ} {p : List ℕ} {s : SearchState}
    (inv : DijInv G o d p s) (hW : PesosPositivos G) (hhead : p.head? = some o)
    {du : ℚ × ℕ} (hmin : heapMin s.heap = some du) (hu : du.2 ∉ s.visitados) :
    ∀ j (hj : j < p.length), p.get ⟨j, hj⟩ = du.2 → du.1 ≤ prefixCost G p j := by
  intro j hj hget
  have hns : p.get ⟨j, hj⟩ ∉ s.visitados := by rw [hget]; exact hu
  rcases dijInv_first inv hhead j hj hns with ⟨i, hi, hij, hins, dv, hdv, hle⟩
  have hheap : (dv, p.get ⟨i, hi⟩) ∈ s.heap := inv.unsettledHeap _ dv hins hdv
  have hk := heapMin_min hmin _ hheap
  exact hk.trans (hle.trans (prefixCost_le hW p i j hij hj))

/-- When the destination is about to settle, every node of the minimal
reference walk is already settled or is the destination itself. -/
theorem dijInv_destSettle {G : WGraph} {o d : ℕ} {p : List ℕ} {s : SearchState}
    (inv : DijInv G o d p s) (hW : PesosPositivos G) (hhead : p.head? = some o)
    (hlast : p.getLast? = some d) (hpne : p ≠ [])
    (hpmin : ∀ w, IsWalk G w → w.head? = some o → w.getLast? = some d →
      walkCost G p ≤ walkCost G w)
    {du : ℚ × ℕ} (hmin : heapMin s.heap = some du) (hu : du.2 ∉ s.visitados)
    (hd : du.2 = d) : ∀ x ∈ p, x ∈ du.2 :: s.visitados := by
  intro x hx
  by_cases hxd : x = d
  · rw [hxd, ← hd]
    exact List.mem_cons_self _ _
  · rcases List.mem_iff_get.mp hx with ⟨⟨m, hm⟩, rfl⟩
    have hmlt : m < p.length - 1 := by
      rcases Nat.lt_or_ge m (p.length - 1) with hlt | hge
      · exact hlt
      · exfalso
        have hmeq : m = p.length - 1 := by
          have := List.length_pos.mpr hpne
          omega
        apply hxd
        subst hmeq
        exact get_last_of_getLast hlast hpne
    by_contra hxs
    have hxns : p.get ⟨m, hm⟩ ∉ s.visitados := fun hin =>
      hxs (List.mem_cons_of_mem _ hin)
    rcases dijInv_first inv hhead m hm hxns with ⟨i, hi, him, hins, dv, hdv, hle⟩
    have hheap := inv.unsettledHeap _ dv hins hdv
    have hk := heapMin_min hmin _ hheap
    have hkd : distLookup s.dist d = some du.1 := hd ▸ dijInv_popKey inv hmin hu
    rcases inv.distRealiza d du.1 hkd with ⟨w, hwW, hwh, hwl, hwc⟩
    have hmin2 : walkCost G p ≤ du.1 := hwc ▸ hpmin w hwW hwh hwl
    have hle2 : prefixCost G p i ≤ prefixCost G p m := prefixCost_le hW p i m him hm
    have hlt2 : prefixCost G p m < prefixCost G p (p.length - 1) :=
      prefixCost_lt hW p (p.length - 1) m hmlt (by
        have := List.length_pos.mpr hpne
        omega)
    have hlast2 : prefixCost G p (p.length - 1) = walkCost G p :=
      prefixCost_last G p hpne
    simp only [hlast2] at hlt2
    linarith

/-- Discarding a stale heap entry preserves the invariant. -/
theorem dijInv_stale {G : WGraph} {o d : ℕ} {p : List ℕ} {s : SearchState}
    (inv : DijInv G o d p s) {du : ℚ × ℕ} (hu : du.2 ∈ s.visitados) :
    DijInv G o d p { s with heap := s.heap.erase du } :=
  { mirror := inv.mirror
    nodupVis := inv.nodupVis
    heapDist := fun kv hkv => inv.heapDist kv (List.mem_of_mem_erase hkv)
    distNonneg := inv.distNonneg
    distOrigem := inv.distOrigem
    distRealiza := inv.distRealiza
    unsettledHeap := fun v dv hv hdv => by
      have hne : (dv, v) ≠ du := fun he => hv (by
        have : v = du.2 := congrArg Prod.snd he
        rw [this]
        exact hu)
      exact (List.mem_erase_of_ne hne).mpr (inv.unsettledHeap v dv hv hdv)
    settledBound := inv.settledBound
    nextBound := inv.nextBound
    destAll := inv.destAll }

/-- Settling the destination preserves the invariant, and in particular
settles the whole reference walk. -/
theorem dijInv_settleDest {G : WGraph} {o d : ℕ} {p : List ℕ} {s : SearchState}
    (inv : DijInv G o d p s) (hW : PesosPositivos G) (hhead : p.head? = some o)
    (hlast : p.getLast? = some d) (hnd : p.Nodup) (hpne : p ≠ [])
    (hpmin : ∀ w, IsWalk G w → w.head? = some o → w.getLast? = some d →
      walkCost G p ≤ walkCost G w)
    {du : ℚ × ℕ} (hmin : heapMin s.heap = some du) (hu : du.2 ∉ s.visitados)
    (hd : du.2 = d) :
    DijInv G o d p ({ s with
      visitados := du.2 :: s.visitados,
      explorados := du.2 :: s.explorados,
      heap := s.heap.erase du }) :=
  { mirror := by
      show du.2 :: s.visitados = du.2 :: s.explorados
      rw [inv.mirror]
    nodupVis := List.nodup_cons.mpr ⟨hu, inv.nodupVis⟩
    heapDist := fun kv hkv => inv.heapDist kv (List.mem_of_mem_erase hkv)
    distNonneg := inv.distNonneg
    distOrigem := inv.distOrigem
    distRealiza := inv.distRealiza
    unsettledHeap := fun v dv hv hdv => by
      have hvs : v ∉ s.visitados := fun hin => hv (List.mem_cons_of_mem _ hin)
      have hvne : (dv, v) ≠ du := fun he => hv (by
        have : v = du.2 := congrArg Prod.snd he
        rw [this]
        exact List.mem_cons_self _ _)
      exact (List.mem_erase_of_ne hvne).mpr (inv.unsettledHeap v dv hvs hdv)
    settledBound := fun i hi hins => by
      rcases List.mem_cons.mp hins with heq | hold
      · refine ⟨du.1, ?_, dijInv_settleKey inv hW hhead hmin hu i hi heq⟩
        rw [heq]
        exact dijInv_popKey inv hmin hu
      · exact inv.settledBound i hi hold
    nextBound := fun i hi hins => by
      rcases List.mem_cons.mp hins with heq | hold
      · exfalso
        have hlen : p.length - 1 < p.length := by
          have := List.length_pos.mpr hpne
          omega
        have hgd : p.get ⟨i, Nat.lt_of_succ_lt hi⟩ = p.get ⟨p.length - 1, hlen⟩ := by
          rw [heq.trans hd, get_last_of_getLast hlast hpne]
        have hfin := (List.Nodup.get_inj_iff hnd).mp hgd
        have : i = p.length - 1 := congrArg Fin.val hfin
        omega
      · rcases inv.nextBound i hi hold with hin | hb
        · exact Or.inl (List.mem_cons_of_mem _ hin)
        · exact Or.inr hb
    destAll := fun _ =>
      dijInv_destSettle inv hW hhead hlast hpne hpmin hmin hu hd }

/-- Settling a non-destination node and relaxing its successors preserves
the invariant. -/
theorem dijInv_settleOther {G : WGraph} {o d : ℕ} {p : List ℕ} {s : SearchState}
    (inv : DijInv G o d p s) (hW : PesosPositivos G) (hhead : p.head? = some o)
    (hwalk : IsWalk G p) (hfun : ℕ → ℚ)
    {du : ℚ × ℕ} (hmin : heapMin s.heap = some du) (hu : du.2 ∉ s.visitados)
    (hd : du.2 ≠ d) (s1 : SearchState)
    (h1v : s1.visitados = du.2 :: s.visitados)
    (h1e : s1.explorados = du.2 :: s.explorados)
    (h1d : s1.dist = s.dist)
    (h1h : s1.heap = s.heap.erase du) :
    DijInv G o d p (relaxar G hfun false du.2 du.1 s1) := by
  have hku : distLookup s.dist du.2 = some du.1 := dijInv_popKey inv hmin hu
  have hk0 : 0 ≤ du.1 := inv.distNonneg _ _ hku
  have hl : relaxar G hfun false du.2 du.1 s1 =
      List.foldl (relaxStep G hfun false du.2 du.1) s1 (sucessores G du.2) := rfl
  have hvis : (relaxar G hfun false du.2 du.1 s1).visitados = du.2 :: s.visitados := by
    rw [hl, (relaxFold_vis G hfun false du.2 du.1 (sucessores G du.2) s1).1, h1v]
  have hexp : (relaxar G hfun false du.2 du.1 s1).explorados = du.2 :: s.explorados := by
    rw [hl, (relaxFold_vis G hfun false du.2 du.1 (sucessores G du.2) s1).2, h1e]
  have hmono : ∀ w dw, distLookup s.dist w = some dw →
      ∃ dw', distLookup (relaxar G hfun false du.2 du.1 s1).dist w = some dw' ∧
        dw' ≤ dw := by
    intro w dw hdw
    rw [hl]
    exact relaxFold_mono G hfun false du.2 du.1 (sucessores G du.2) s1 w dw
      (by rw [h1d]; exact hdw)
  have hnew : ∀ w dw', distLookup (relaxar G hfun false du.2 du.1 s1).dist w = some dw' →
      distLookup s.dist w = some dw' ∨
        (Adjacente G du.2 w ∧ w ∉ du.2 :: s.visitados ∧
          dw' = du.1 + pesoMinimo G du.2 w) := by
    intro w dw' hdw'
    rw [hl] at hdw'
    rcases relaxFold_dist_new G hfun false du.2 du.1 (sucessores G du.2) s1 w dw' hdw'
      with hold | ⟨hwl, hwv, hf⟩
    · rw [h1d] at hold
      exact Or.inl hold
    · rw [h1v] at hwv
      exact Or.inr ⟨hwl, hwv, hf⟩
  have hbound : ∀ w, Adjacente G du.2 w → w ∉ du.2 :: s.visitados →
      ∃ dw', distLookup (relaxar G hfun false du.2 du.1 s1).dist w = some dw' ∧
        dw' ≤ du.1 + pesoMinimo G du.2 w := by
    intro w hwl hwv
    rw [hl]
    exact relaxFold_bound G hfun false du.2 du.1 (sucessores G du.2) s1 w hwl
      (by rw [h1v]; exact hwv)
  refine { mirror := ?_, nodupVis := ?_, heapDist := ?_, distNonneg := ?_,
           distOrigem := ?_, distRealiza := ?_, unsettledHeap := ?_,
           settledBound := ?_, nextBound := ?_, destAll := ?_ }
  · rw [hvis, hexp, inv.mirror]
  · rw [hvis]
    exact List.nodup_cons.mpr ⟨hu, inv.nodupVis⟩
  · intro kv hkv
    rw [hl] at hkv
    rcases relaxFold_heap_new G hfun false du.2 du.1 (sucessores G du.2) s1 kv hkv
      with hold | ⟨w, hwl, hwv, hkv_eq⟩
    · rw [h1h] at hold
      rcases inv.heapDist kv (List.mem_of_mem_erase hold) with ⟨dv, hdv, hle⟩
      rcases hmono kv.2 dv hdv with ⟨dv', hdv', hle'⟩
      exact ⟨dv', hdv', hle'.trans hle⟩
    · rw [if_neg Bool.false_ne_true] at hkv_eq
      rw [h1v] at hwv
      subst hkv_eq
      rcases hbound w hwl hwv with ⟨dv', hdv', hle'⟩
      exact ⟨dv', hdv', hle'⟩
  · intro v dv hdv
    rcases hnew v dv hdv with hold | ⟨_, _, rfl⟩
    · exact inv.distNonneg v dv hold
    · have := pesoMinimo_pos (G := G) (u := du.2) (v := v) hW
      linarith
  · rcases hmono o 0 inv.distOrigem with ⟨dw', hdw', hle0⟩
    rcases hnew o dw' hdw' with hold | ⟨_, _, heq⟩
    · have h0 : dw' = 0 := Option.some.inj (hold.symm.trans inv.distOrigem)
      rw [h0] at hdw'
      exact hdw'
    · exfalso
      have := pesoMinimo_pos (G := G) (u := du.2) (v := o) hW
      rw [heq] at hle0
      linarith
  · intro v dv hdv
    rcases hnew v dv hdv with hold | ⟨hvl, _, rfl⟩
    · exact inv.distRealiza v dv hold
    · rcases inv.distRealiza du.2 du.1 hku with ⟨w0, hw0W, hw0h, hw0l, hw0c⟩
      refine ⟨w0 ++ [v], isWalk_concat hw0W hw0l hvl, ?_, List.getLast?_concat _, ?_⟩
      · cases w0 with
        | nil => simp at hw0h
        | cons a t => simpa using hw0h
      · rw [walkCost_concat G w0 du.2 v hw0l, hw0c]
  · intro v dv hv hdv
    rw [hvis] at hv
    rw [hl] at hdv ⊢
    refine relaxFold_unsettled G hfun du.2 du.1 (sucessores G du.2) s1 ?_ v dv
      (by rw [h1v]; exact hv) hdv
    intro w dw hw hdw
    rw [h1v] at hw
    rw [h1d] at hdw
    have hws : w ∉ s.visitados := fun hin => hw (List.mem_cons_of_mem _ hin)
    have hwne : (dw, w) ≠ du := fun he => hw (by
      have : w = du.2 := congrArg Prod.snd he
      rw [this]
      exact List.mem_cons_self _ _)
    rw [h1h]
    exact (List.mem_erase_of_ne hwne).mpr (inv.unsettledHeap w dw hws hdw)
  · intro i hi hins
    rw [hvis] at hins
    rcases List.mem_cons.mp hins with heq | hold
    · have hkey := dijInv_settleKey inv hW hhead hmin hu i hi heq
      rcases hmono (p.get ⟨i, hi⟩) du.1 (by rw [heq]; exact hku) with ⟨dv', hdv', hle'⟩
      exact ⟨dv', hdv', hle'.trans hkey⟩
    · rcases inv.settledBound i hi hold with ⟨dv, hdv, hle⟩
      rcases hmono (p.get ⟨i, hi⟩) dv hdv with ⟨dv', hdv', hle'⟩
      exact ⟨dv', hdv', hle'.trans hle⟩
  · intro i hi hins
    rw [hvis] at hins
    rw [hvis]
    rcases List.mem_cons.mp hins with heq | hold
    · by_cases hnx : p.get ⟨i + 1, hi⟩ ∈ du.2 :: s.visitados
      · exact Or.inl hnx
      · have hadj : Adjacente G (p.get ⟨i, Nat.lt_of_succ_lt hi⟩)
            (p.get ⟨i + 1, hi⟩) :=
          List.chain'_iff_get.mp hwalk i (by omega)
        rw [heq] at hadj
        rcases hbound _ hadj hnx with ⟨dv', hdv', hle'⟩
        refine Or.inr ⟨dv', hdv', ?_⟩
        have hkey := dijInv_settleKey inv hW hhead hmin hu i (Nat.lt_of_succ_lt hi) heq
        have hpm : pesoMinimo G du.2 (p.get ⟨i + 1, hi⟩) =
            pesoMinimo G (p.get ⟨i, Nat.lt_of_succ_lt hi⟩) (p.get ⟨i + 1, hi⟩) := by
          rw [heq]
        rw [prefixCost_succ G p i hi]
        rw [hpm] at hle'
        linarith
    · rcases inv.nextBound i hi hold with hin | ⟨dv, hdv, hle⟩
      · exact Or.inl (List.mem_cons_of_mem _ hin)
      · rcases hmono (p.get ⟨i + 1, hi⟩) dv hdv with ⟨dv', hdv', hle'⟩
        exact Or.inr ⟨dv', hdv', hle'.trans hle⟩
  · intro hdin
    rw [hvis] at hdin
    intro x hx
    rw [hvis]
    rcases List.mem_cons.mp hdin with heq | hold
    · exact absurd heq.symm hd
    · exact List.mem_cons_of_mem _ (inv.destAll hold x hx)

/-- The Dijkstra-mode loop preserves the invariant for any amount of
fuel. -/
theorem dijInv_loop {G : WGraph} {o d : ℕ} {p : List ℕ}
    (hW : PesosPositivos G) (hhead : p.head? = some o)
    (hlast : p.getLast? = some d) (hnd : p.Nodup) (hwalk : IsWalk G p)
    (hpmin : ∀ w, IsWalk G w → w.head? = some o → w.getLast? = some d →
      walkCost G p ≤ walkCost G w) (hfun : ℕ → ℚ) :
    ∀ (fuel : ℕ) (s : SearchState), DijInv G o d p s →
      DijInv G o d p (buscaLoop G d hfun false fuel s) := by
  have hpne : p ≠ [] := by
    intro h
    rw [h] at hhead
    simp at hhead
  intro fuel
  induction fuel with
  | zero => intro s inv; exact inv
  | succ fuel ih =>
    intro s inv
    rw [buscaLoop]
    cases hm : heapMin s.heap with
    | none => exact inv
    | some du =>
      dsimp only
      by_cases hu : du.2 ∈ s.visitados
      · rw [if_pos hu]
        exact ih _ (dijInv_stale inv hu)
      · rw [if_neg hu]
        by_cases hdd : du.2 = d
        · rw [if_pos hdd]
          exact dijInv_settleDest inv hW hhead hlast hnd hpne hpmin hm hu hdd
        · rw [if_neg hdd]
          exact ih _ (dijInv_settleOther inv hW hhead hwalk hfun hm hu hdd _
            rfl rfl rfl rfl)

/-- The invariant holds initially. -/
theorem dijInv_init (G : WGraph) (o d : ℕ) (p : List ℕ) :
    DijInv G o d p (estadoInicial o) :=
  { mirror := rfl
    nodupVis := List.nodup_nil
    heapDist := fun kv hkv => by
      rcases List.mem_singleton.mp hkv with rfl
      refine ⟨0, ?_, le_refl _⟩
      show distLookup [(o, 0)] o = some 0
      unfold distLookup
      rw [if_pos rfl]
    distNonneg := fun v dv hdv => by
      show 0 ≤ dv
      unfold estadoInicial distLookup at hdv
      split_ifs at hdv
      · exact (Option.some.inj hdv) ▸ le_refl 0
      · simp [distLookup] at hdv
    distOrigem := by
      show distLookup [(o, 0)] o = some 0
      unfold distLookup
      rw [if_pos rfl]
    distRealiza := fun v dv hdv => by
      unfold estadoInicial distLookup at hdv
      split_ifs at hdv with hv
      · subst hv
        refine ⟨[v], List.chain'_singleton _, rfl, rfl, ?_⟩
        rw [← Option.some.inj hdv]
        rfl
      · simp [distLookup] at hdv
    unsettledHeap := fun v dv _ hdv => by
      unfold estadoInicial distLookup at hdv
      split_ifs at hdv with hv
      · subst hv
        rw [← Option.some.inj hdv]
        exact List.mem_singleton.mpr rfl
      · simp [distLookup] at hdv
    settledBound := fun i hi hins => by simp [estadoInicial] at hins
    nextBound := fun i hi hins => by simp [estadoInicial] at hins
    destAll := fun hdin => by simp [estadoInicial] at hdin }

/-! ## C5, stage 3: generic facts about both search modes -/

theorem relaxar_visitados (G : WGraph) (hfun : ℕ → ℚ) (mode : Bool) (u : ℕ)
    (b : ℚ) (s : SearchState) :
    (relaxar G hfun mode u b s).visitados = s.visitados :=
  (relaxFold_vis G hfun mode u b (sucessores G u) s).1

theorem relaxar_explorados (G : WGraph) (hfun : ℕ → ℚ) (mode : Bool) (u : ℕ)
    (b : ℚ) (s : SearchState) :
    (relaxar G hfun mode u b s).explorados = s.explorados :=
  (relaxFold_vis G hfun mode u b (sucessores G u) s).2

/-- The settled list only grows during the loop. -/
theorem buscaLoop_expl_mono (G : WGraph) (d : ℕ) (hfun : ℕ → ℚ) (mode : Bool) :
    ∀ (fuel : ℕ) (s : SearchState), ∃ pre : List ℕ,
    (buscaLoop G d hfun mode fuel s).explorados = pre ++ s.explorados := by
  intro fuel
  induction fuel with
  | zero => intro s; exact ⟨[], rfl⟩
  | succ fuel ih =>
    intro s
    rw [buscaLoop]
    cases hm : heapMin s.heap with
    | none => exact ⟨[], rfl⟩
    | some du =>
      dsimp only
      by_cases hu : du.2 ∈ s.visitados
      · rw [if_pos hu]
        exact ih _
      · rw [if_neg hu]
        by_cases hdd : du.2 = d
        · rw [if_pos hdd]
          exact ⟨[du.2], rfl⟩
        · rw [if_neg hdd]
          rcases ih (relaxar G hfun mode du.2
            (if mode then (distLookup s.dist du.2).getD 0 else du.1)
            { s with visitados := du.2 :: s.visitados,
                     explorados := du.2 :: s.explorados,
                     heap := s.heap.erase du }) with ⟨pre, hpre⟩
          refine ⟨pre ++ [du.2], ?_⟩
          rw [hpre, relaxar_explorados]
          simp

/-- Settled lists stay mirrored and duplicate-free. -/
theorem buscaLoop_nodup (G : WGraph) (d : ℕ) (hfun : ℕ → ℚ) (mode : Bool) :
    ∀ (fuel : ℕ) (s : SearchState), s.visitados = s.explorados →
    s.visitados.Nodup →
    (buscaLoop G d hfun mode fuel s).visitados =
        (buscaLoop G d hfun mode fuel s).explorados ∧
      (buscaLoop G d hfun mode fuel s).visitados.Nodup := by
  intro fuel
  induction fuel with
  | zero => intro s hmir hnd; exact ⟨hmir, hnd⟩
  | succ fuel ih =>
    intro s hmir hnd
    rw [buscaLoop]
    cases hm : heapMin s.heap with
    | none => exact ⟨hmir, hnd⟩
    | some du =>
      dsimp only
      by_cases hu : du.2 ∈ s.visitados
      · rw [if_pos hu]
        exact ih _ hmir hnd
      · rw [if_neg hu]
        by_cases hdd : du.2 = d
        · rw [if_pos hdd]
          exact ⟨by show du.2 :: s.visitados = du.2 :: s.explorados; rw [hmir],
            List.nodup_cons.mpr ⟨hu, hnd⟩⟩
        · rw [if_neg hdd]
          have h1 := relaxar_visitados G hfun mode du.2
            (if mode then (distLookup s.dist du.2).getD 0 else du.1)
            { s with visitados := du.2 :: s.visitados,
                     explorados := du.2 :: s.explorados,
                     heap := s.heap.erase du }
          have h2 := relaxar_explorados G hfun mode du.2
            (if mode then (distLookup s.dist du.2).getD 0 else du.1)
            { s with visitados := du.2 :: s.visitados,
                     explorados := du.2 :: s.explorados,
                     heap := s.heap.erase du }
          refine ih _ ?_ ?_
          · rw [h1, h2]
            show du.2 :: s.visitados = du.2 :: s.explorados
            rw [hmir]
          · rw [h1]
            exact List.nodup_cons.mpr ⟨hu, hnd⟩

/-- If the loop ever settles the destination, it is the last node settled:
the loop breaks there. -/
theorem buscaLoop_dest_head (G : WGraph) (d : ℕ) (hfun : ℕ → ℚ) (mode : Bool) :
    ∀ (fuel : ℕ) (s : SearchState), d ∉ s.explorados →
    d ∈ (buscaLoop G d hfun mode fuel s).explorados →
    (buscaLoop G d hfun mode fuel s).explorados.head? = some d := by
  intro fuel
  induction fuel with
  | zero => intro s hns hin; exact absurd hin hns
  | succ fuel ih =>
    intro s hns hin
    rw [buscaLoop] at hin ⊢
    cases hm : heapMin s.heap with
    | none =>
      rw [hm] at hin
      exact absurd hin hns
    | some du =>
      rw [hm] at hin
      dsimp only at hin ⊢
      by_cases hu : du.2 ∈ s.visitados
      · rw [if_pos hu] at hin ⊢
        exact ih _ hns hin
      · rw [if_neg hu] at hin ⊢
        by_cases hdd : du.2 = d
        · rw [if_pos hdd] at hin ⊢
          show (du.2 :: s.explorados).head? = some d
          rw [hdd]
          rfl
        · rw [if_neg hdd] at hin ⊢
          refine ih _ ?_ hin
          rw [relaxar_explorados]
          show d ∉ du.2 :: s.explorados
          intro hmem
          rcases List.mem_cons.mp hmem with heq | hold
          · exact hdd heq.symm
          · exact hns hold

/-- The first iteration always settles the origin, so the count is at least
one. -/
theorem buscaLoop_ge_one (G : WGraph) (d : ℕ) (hfun : ℕ → ℚ) (mode : Bool)
    (o : ℕ) :
    1 ≤ (buscaLoop G d hfun mode (searchFuel G) (estadoInicial o)).explorados.length := by
  show 1 ≤ (buscaLoop G d hfun mode (G.edges.length + 1 + 1)
    (estadoInicial o)).explorados.length
  rw [buscaLoop]
  have hm : heapMin (estadoInicial o).heap = some (0, o) := rfl
  rw [hm]
  dsimp only
  rw [if_neg (by simp [estadoInicial])]
  by_cases hdd : o = d
  · rw [if_pos hdd]
    simp [estadoInicial]
  · rw [if_neg hdd]
    rcases buscaLoop_expl_mono G d hfun mode (G.edges.length + 1) _ with ⟨pre, hpre⟩
    rw [hpre, relaxar_explorados]
    simp [estadoInicial]

/-- C5 amended: both exploration counters return the number of distinct
nodes settled up to and including the destination (the settled list is
duplicate-free, mirrors the `visitados` set, and ends — i.e. begins, in
insertion order — at the destination when it is found); the count is always
at least 1 (the origin settles first); and for `contar_nos_dijkstra` under
strictly positive weights the count is at least the number of nodes of a
minimal returned path whenever the destination settles.  (For
`contar_nos_astar` the path bound can fail; see the counterexample.) -/
theorem c5_amended_exploration_counts :
    (∀ (G : WGraph) (o d : ℕ), 1 ≤ contar_nos_dijkstra G o d) ∧
    (∀ (G : WGraph) (o d : ℕ) (h : ℕ → ℚ), 1 ≤ contar_nos_astar G o d h) ∧
    (∀ (G : WGraph) (o d : ℕ),
      contar_nos_dijkstra G o d = (dijkstraRun G o d).explorados.length ∧
      (dijkstraRun G o d).explorados.Nodup ∧
      (dijkstraRun G o d).visitados = (dijkstraRun G o d).explorados ∧
      (d ∈ (dijkstraRun G o d).explorados →
        (dijkstraRun G o d).explorados.head? = some d)) ∧
    (∀ (G : WGraph) (o d : ℕ) (h : ℕ → ℚ),
      contar_nos_astar G o d h = (astarRun G o d h).explorados.length ∧
      (astarRun G o d h).explorados.Nodup ∧
      (astarRun G o d h).visitados = (astarRun G o d h).explorados ∧
      (d ∈ (astarRun G o d h).explorados →
        (astarRun G o d h).explorados.head? = some d)) ∧
    (∀ (G : WGraph) (o d : ℕ) (p : List ℕ), PesosPositivos G →
      IsMinPath G o d p → d ∈ (dijkstraRun G o d).visitados →
      p.length ≤ contar_nos_dijkstra G o d) := by
  refine ⟨?_, ?_, ?_, ?_, ?_⟩
  · intro G o d
    exact buscaLoop_ge_one G d (fun _ => 0) false o
  · intro G o d h
    exact buscaLoop_ge_one G d h true o
  · intro G o d
    have hnd := buscaLoop_nodup G d (fun _ => 0) false (searchFuel G)
      (estadoInicial o) rfl List.nodup_nil
    exact ⟨rfl, hnd.1 ▸ hnd.2, hnd.1,
      buscaLoop_dest_head G d (fun _ => 0) false (searchFuel G) (estadoInicial o)
        (by simp [estadoInicial])⟩
  · intro G o d h
    have hnd := buscaLoop_nodup G d h true (searchFuel G)
      (estadoInicial o) rfl List.nodup_nil
    exact ⟨rfl, hnd.1 ▸ hnd.2, hnd.1,
      buscaLoop_dest_head G d h true (searchFuel G) (estadoInicial o)
        (by simp [estadoInicial])⟩
  · intro G o d p hW hmp hdin
    rcases hmp with ⟨hwalk, hhead, hlast, hndp, hpmin⟩
    have invR : DijInv G o d p (dijkstraRun G o d) :=
      dijInv_loop hW hhead hlast hndp hwalk hpmin (fun _ => 0) (searchFuel G)
        (estadoInicial o) (dijInv_init G o d p)
    have hsub : p ⊆ (dijkstraRun G o d).visitados := fun x hx =>
      invR.destAll hdin x hx
    have hlen : p.length ≤ (dijkstraRun G o d).visitados.length :=
      (List.subperm_of_subset hndp hsub).length_le
    show p.length ≤ (dijkstraRun G o d).explorados.length
    rw [← invR.mirror]
    exact hlen

/-! ## C5, stage 4: the two concrete graphs -/

theorem c5Ce_walk4 : ∀ w, IsWalk c5CeGraph w → w.head? = some 4 →
    w.getLast? = some 4 → w = [4] := by
  intro w hw hh _
  cases w with
  | nil => simp at hh
  | cons a t =>
    have ha : a = 4 := by simpa using hh
    subst ha
    cases t with
    | nil => rfl
    | cons b t' =>
      exfalso
      have hadj : Adjacente c5CeGraph 4 b := (List.chain'_cons.mp hw).1
      have hb : b ∈ sucessores c5CeGraph 4 := hadj
      rw [show sucessores c5CeGraph 4 = [] from rfl] at hb
      simp at hb

theorem c5Ce_walk3 : ∀ w, IsWalk c5CeGraph w → w.head? = some 3 →
    w.getLast? = some 4 → w = [3, 4] := by
  intro w hw hh hl
  cases w with
  | nil => simp at hh
  | cons a t =>
    have ha : a = 3 := by simpa using hh
    subst ha
    cases t with
    | nil => simp at hl
    | cons b t' =>
      have hadj : Adjacente c5CeGraph 3 b := (List.chain'_cons.mp hw).1
      have hb : b = 4 := by
        have hmem : b ∈ sucessores c5CeGraph 3 := hadj
        rw [show sucessores c5CeGraph 3 = [4] from rfl] at hmem
        simpa using hmem
      subst hb
      have ht : (4 :: t' : List ℕ) = [4] :=
        c5Ce_walk4 (4 :: t') (List.chain'_cons.mp hw).2 rfl
          (by rw [← List.getLast?_cons_cons]; exact hl)
      rw [ht]

theorem c5Ce_walk2 : ∀ w, IsWalk c5CeGraph w → w.head? = some 2 →
    w.getLast? = some 4 → w = [2, 3, 4] := by
  intro w hw hh hl
  cases w with
  | nil => simp at hh
  | cons a t =>
    have ha : a = 2 := by simpa using hh
    subst ha
    cases t with
    | nil => simp at hl
    | cons b t' =>
      have hadj : Adjacente c5CeGraph 2 b := (List.chain'_cons.mp hw).1
      have hb : b = 3 := by
        have hmem : b ∈ sucessores c5CeGraph 2 := hadj
        rw [show sucessores c5CeGraph 2 = [3] from rfl] at hmem
        simpa using hmem
      subst hb
      have ht : (3 :: t' : List ℕ) = [3, 4] :=
        c5Ce_walk3 (3 :: t') (List.chain'_cons.mp hw).2 rfl
          (by rw [← List.getLast?_cons_cons]; exact hl)
      rw [ht]

theorem c5Ce_walk1 : ∀ w, IsWalk c5CeGraph w → w.head? = some 1 →
    w.getLast? = some 4 → w = [1, 2, 3, 4] ∨ w = [1, 4] := by
  intro w hw hh hl
  cases w with
  | nil => simp at hh
  | cons a t =>
    have ha : a = 1 := by simpa using hh
    subst ha
    cases t with
    | nil => simp at hl
    | cons b t' =>
      have hadj : Adjacente c5CeGraph 1 b := (List.chain'_cons.mp hw).1
      have hb : b = 2 ∨ b = 4 := by
        have hmem : b ∈ sucessores c5CeGraph 1 := hadj
        rw [show sucessores c5CeGraph 1 = [2, 4] from rfl] at hmem
        simpa using hmem
      rcases hb with rfl | rfl
      · have ht : (2 :: t' : List ℕ) = [2, 3, 4] :=
          c5Ce_walk2 (2 :: t') (List.chain'_cons.mp hw).2 rfl
            (by rw [← List.getLast?_cons_cons]; exact hl)
        rw [ht]
        exact Or.inl rfl
      · have ht : (4 :: t' : List ℕ) = [4] :=
          c5Ce_walk4 (4 :: t') (List.chain'_cons.mp hw).2 rfl
            (by rw [← List.getLast?_cons_cons]; exact hl)
        rw [ht]
        exact Or.inr rfl

/-- `[1, 2, 3, 4]` is the minimal simple path `1 → 4` in the counterexample
graph: the only other walk is the direct edge of cost 10. -/
theorem c5Ce_min_path : IsMinPath c5CeGraph 1 4 [1, 2, 3, 4] := by
  have hA12 : Adjacente c5CeGraph 1 2 := by
    show (2 : ℕ) ∈ sucessores c5CeGraph 1
    rw [show sucessores c5CeGraph 1 = [2, 4] from rfl]
    simp
  have hA23 : Adjacente c5CeGraph 2 3 := by
    show (3 : ℕ) ∈ sucessores c5CeGraph 2
    rw [show sucessores c5CeGraph 2 = [3] from rfl]
    simp
  have hA34 : Adjacente c5CeGraph 3 4 := by
    show (4 : ℕ) ∈ sucessores c5CeGraph 3
    rw [show sucessores c5CeGraph 3 = [4] from rfl]
    simp
  refine ⟨?_, rfl, rfl, by decide, ?_⟩
  · exact List.chain'_cons.mpr ⟨hA12, List.chain'_cons.mpr ⟨hA23,
      List.chain'_cons.mpr ⟨hA34, List.chain'_singleton _⟩⟩⟩
  · intro w hw hh hl
    rcases c5Ce_walk1 w hw hh hl with rfl | rfl
    · exact le_refl _
    · show walkCost c5CeGraph [1, 2, 3, 4] ≤ walkCost c5CeGraph [1, 4]
      norm_num [walkCost, walkCost_cons_cons, pesoMinimo, edgeLengths, c5CeGraph]

theorem c5Wit_walk4 : ∀ w, IsWalk c5WitGraph w → w.head? = some 4 →
    w.getLast? = some 4 → w = [4] := by
  intro w hw hh _
  cases w with
  | nil => simp at hh
  | cons a t =>
    have ha : a = 4 := by simpa using hh
    subst ha
    cases t with
    | nil => rfl
    | cons b t' =>
      exfalso
      have hadj : Adjacente c5WitGraph 4 b := (List.chain'_cons.mp hw).1
      have hb : b ∈ sucessores c5WitGraph 4 := hadj
      rw [show sucessores c5WitGraph 4 = [] from rfl] at hb
      simp at hb

theorem c5Wit_walk3 : ∀ w, IsWalk c5WitGraph w → w.head? = some 3 →
    w.getLast? = some 4 → w = [3, 4] := by
  intro w hw hh hl
  cases w with
  | nil => simp at hh
  | cons a t =>
    have ha : a = 3 := by simpa using hh
    subst ha
    cases t with
    | nil => simp at hl
    | cons b t' =>
      have hadj : Adjacente c5WitGraph 3 b := (List.chain'_cons.mp hw).1
      have hb : b = 4 := by
        have hmem : b ∈ sucessores c5WitGraph 3 := hadj
        rw [show sucessores c5WitGraph 3 = [4] from rfl] at hmem
        simpa using hmem
      subst hb
      have ht : (4 :: t' : List ℕ) = [4] :=
        c5Wit_walk4 (4 :: t') (List.chain'_cons.mp hw).2 rfl
          (by rw [← List.getLast?_cons_cons]; exact hl)
      rw [ht]

theorem c5Wit_walk2 : ∀ w, IsWalk c5WitGraph w → w.head? = some 2 →
    w.getLast? = some 4 → w = [2, 3, 4] := by
  intro w hw hh hl
  cases w with
  | nil => simp at hh
  | cons a t =>
    have ha : a = 2 := by simpa using hh
    subst ha
    cases t with
    | nil => simp at hl
    | cons b t' =>
      have hadj : Adjacente c5WitGraph 2 b := (List.chain'_cons.mp hw).1
      have hb : b = 3 := by
        have hmem : b ∈ sucessores c5WitGraph 2 := hadj
        rw [show sucessores c5WitGraph 2 = [3] from rfl] at hmem
        simpa using hmem
      subst hb
      have ht : (3 :: t' : List ℕ) = [3, 4] :=
        c5Wit_walk3 (3 :: t') (List.chain'_cons.mp hw).2 rfl
          (by rw [← List.getLast?_cons_cons]; exact hl)
      rw [ht]

theorem c5Wit_walk1 : ∀ w, IsWalk c5WitGraph w → w.head? = some 1 →
    w.getLast? = some 4 → w = [1, 2, 3, 4] := by
  intro w hw hh hl
  cases w with
  | nil => simp at hh
  | cons a t =>
    have ha : a = 1 := by simpa using hh
    subst ha
    cases t with
    | nil => simp at hl
    | cons b t' =>
      have hadj : Adjacente c5WitGraph 1 b := (List.chain'_cons.mp hw).1
      have hb : b = 2 := by
        have hmem : b ∈ sucessores c5WitGraph 1 := hadj
        rw [show sucessores c5WitGraph 1 = [2] from rfl] at hmem
        simpa using hmem
      subst hb
      have ht : (2 :: t' : List ℕ) = [2, 3, 4] :=
        c5Wit_walk2 (2 :: t') (List.chain'_cons.mp hw).2 rfl
          (by rw [← List.getLast?_cons_cons]; exact hl)
      rw [ht]

/-- `[1, 2, 3, 4]` is the minimal (indeed the only) path `1 → 4` in the
spec §8 line graph. -/
theorem c5Wit_min_path : IsMinPath c5WitGraph 1 4 [1, 2, 3, 4] := by
  have hA12 : Adjacente c5WitGraph 1 2 := by
    show (2 : ℕ) ∈ sucessores c5WitGraph 1
    rw [show sucessores c5WitGraph 1 = [2] from rfl]
    simp
  have hA23 : Adjacente c5WitGraph 2 3 := by
    show (3 : ℕ) ∈ sucessores c5WitGraph 2
    rw [show sucessores c5WitGraph 2 = [3] from rfl]
    simp
  have hA34 : Adjacente c5WitGraph 3 4 := by
    show (4 : ℕ) ∈ sucessores c5WitGraph 3
    rw [show sucessores c5WitGraph 3 = [4] from rfl]
    simp
  refine ⟨?_, rfl, rfl, by decide, ?_⟩
  · exact List.chain'_cons.mpr ⟨hA12, List.chain'_cons.mpr ⟨hA23,
      List.chain'_cons.mpr ⟨hA34, List.chain'_singleton _⟩⟩⟩
  · intro w hw hh hl
    rw [c5Wit_walk1 w hw hh hl]

/-- On the counterexample graph the spec heuristic takes exactly the
rational values recorded by `c5CeHeur`: 111000 m for the nodes one degree
of longitude from the destination, 0 for the rest. -/
theorem c5Ce_heur_bridge : ∀ v ∈ ([1, 2, 3, 4] : List ℕ),
    heuristica_astar c5CeGraph v 4 = ((c5CeHeur v : ℚ) : ℝ) := by
  have h111 : Real.sqrt 12321000000 = 111000 := by
    rw [show (12321000000 : ℝ) = 111000 ^ 2 by norm_num,
      Real.sqrt_sq (by norm_num : (0 : ℝ) ≤ 111000)]
  intro v hv
  fin_cases hv
  · norm_num [heuristica_astar, c5CeGraph, c5CeHeur, List.find?]
  · norm_num [heuristica_astar, c5CeGraph, c5CeHeur, List.find?]
    exact h111
  · norm_num [heuristica_astar, c5CeGraph, c5CeHeur, List.find?]
    exact h111
  · norm_num [heuristica_astar, c5CeGraph, c5CeHeur, List.find?]

/-- C5, counterexample: on a positively-weighted graph where the spec's
straight-line heuristic grossly overestimates (111000 m for mid-chain
nodes versus an alternative edge of cost 10), `contar_nos_astar` settles
only 2 nodes — the origin and the destination via the direct edge — while
the minimal path `nx.shortest_path` returns has 4 nodes, refuting the
claim's "count ≥ number of nodes on the returned path" for the A\*
counter. -/
theorem c5_counterexample :
    PesosPositivos c5CeGraph ∧
    IsMinPath c5CeGraph 1 4 [1, 2, 3, 4] ∧
    (∀ v ∈ ([1, 2, 3, 4] : List ℕ),
      heuristica_astar c5CeGraph v 4 = ((c5CeHeur v : ℚ) : ℝ)) ∧
    4 ∈ (astarRun c5CeGraph 1 4 c5CeHeur).visitados ∧
    contar_nos_astar c5CeGraph 1 4 c5CeHeur = 2 ∧
    ¬ (([1, 2, 3, 4] : List ℕ).length ≤ contar_nos_astar c5CeGraph 1 4 c5CeHeur) := by
  have hc : contar_nos_astar c5CeGraph 1 4 c5CeHeur = 2 ∧
      4 ∈ (astarRun c5CeGraph 1 4 c5CeHeur).visitados := by
    norm_num [contar_nos_astar, astarRun, buscaLoop, relaxar, relaxStep,
      heapMin, distLookup, sucessores, firstDedupAux, pesoMinimo, edgeLengths,
      estadoInicial, searchFuel, c5CeGraph, c5CeHeur, List.erase]
  have hpos : PesosPositivos c5CeGraph := by
    show ∀ e ∈ c5CeGraph.edges, 0 < e.data.length.getD 1
    decide
  refine ⟨hpos, c5Ce_min_path, c5Ce_heur_bridge, hc.2, hc.1, ?_⟩
  rw [hc.1]
  decide

/-- C5, witness for the amended claim on the spec §8 line graph: weights
are positive, `[1, 2, 3, 4]` is the minimal path, the destination
settles, and the amended theorem yields both the ≥ 1 bound and the
path-length bound for the Dijkstra counter (where the count is 4). -/
theorem c5_amended_witness :
    PesosPositivos c5WitGraph ∧
    IsMinPath c5WitGraph 1 4 [1, 2, 3, 4] ∧
    4 ∈ (dijkstraRun c5WitGraph 1 4).visitados ∧
    1 ≤ contar_nos_dijkstra c5WitGraph 1 4 ∧
    ([1, 2, 3, 4] : List ℕ).length ≤ contar_nos_dijkstra c5WitGraph 1 4 := by
  have hpos : PesosPositivos c5WitGraph := by
    show ∀ e ∈ c5WitGraph.edges, 0 < e.data.length.getD 1
    decide
  have hmem : 4 ∈ (dijkstraRun c5WitGraph 1 4).visitados := by
    norm_num [dijkstraRun, buscaLoop, relaxar, relaxStep,
      heapMin, distLookup, sucessores, firstDedupAux, pesoMinimo, edgeLengths,
      estadoInicial, searchFuel, c5WitGraph, List.erase]
  exact ⟨hpos, c5Wit_min_path, hmem,
    c5_amended_exploration_counts.1 c5WitGraph 1 4,
    c5_amended_exploration_counts.2.2.2.2 c5WitGraph 1 4 [1, 2, 3, 4] hpos
      c5Wit_min_path hmem⟩
